import Mathlib

/-! Cabinet lights: SextetStream decoder and LED render pipeline.

A shallow embedding of `src/main.cpp` (the Arduino sketch that decodes
SextetStream light data from the serial port and drives a 60-pixel RGB strip)
together with the properties of its decoder, zone mapping, fade and gamma
correction steps.

Conventions of the embedding:

* `uint8_t` is `Fin 256`; a C `char` holding a received byte is an `Int`
  (`toChar`), signed or unsigned according to the target's ABI, which is a
  parameter of the decoder;
* the global arrays `leds` and `framebuffer` are lists of `CRGB`, the fixed
  array size `NUM_LEDS` appearing as a length hypothesis of the theorems;
* a counted `for` loop is a left fold over the list of its indices;
* the serial port is the list of bytes it has received and not yet handed
  out; the outcome of one pass of `loop()` is an `Option`, `none` standing
  for a pass that does not come to its end (a blocking read that is never
  served) or that reads outside an array or table.
-/

namespace CabinetLights

/-! ## Data model -/

/-- An unsigned 8-bit machine integer. -/
abbrev uint8_t := Fin 256

/-- The macro `NUM_LEDS`: the number of pixels of the strip. -/
def NUM_LEDS : Nat := 60

/-- The macro `FADE_RATE`: the argument handed to `fadeToBlackBy`. -/
def FADE_RATE : uint8_t := 30

/-- Modelled from the spec: the FastLED pixel type `CRGB`, an (r, g, b) triple
of 8-bit channels; its declaration is in the FastLED library. -/
structure CRGB where
  r : uint8_t
  g : uint8_t
  b : uint8_t
deriving DecidableEq, Repr

/-- Modelled from the spec: the FastLED colour constant `CRGB::Yellow`
(0xFFFF00), the colour of the two upper marquee zones. -/
def CRGB.Yellow : CRGB := ⟨255, 255, 0⟩

/-- Modelled from the spec: the FastLED colour constant `CRGB::Red`
(0xFF0000), the colour of the two lower marquee zones. -/
def CRGB.Red : CRGB := ⟨255, 0, 0⟩

/-- The pixel every channel of which is zero. -/
def CRGB.Black : CRGB := ⟨0, 0, 0⟩

/-- The global variables of the sketch. -/
structure State where
  /-- Raw LED colours (no colour correction). -/
  leds : List CRGB
  /-- Actual colours sent to the LEDs (with colour correction). -/
  framebuffer : List CRGB
  /-- Buffer for receiving serial data. -/
  s_pLightData : List uint8_t
  /-- Current state of the cabinet lights. -/
  s_nCabinetLights : uint8_t
deriving DecidableEq, Repr

/-! ### The enumeration `lightMask_t` -/

def enumLightMaskMarqueeUpperLeft : Nat := 0x01
def enumLightMaskMarqueeUpperRight : Nat := 0x02
def enumLightMaskMarqueeLowerLeft : Nat := 0x04
def enumLightMaskMarqueeLowerRight : Nat := 0x08
def enumLightMaskBassLeft : Nat := 0x10
def enumLightMaskBassRight : Nat := 0x20

/-- The macro `CABINET_LIGHT_ACTIVE(mask)`, that is `(s_nCabinetLights & mask)`
used as a condition: true when the conjunction is not zero. -/
def CABINET_LIGHT_ACTIVE (s_nCabinetLights : uint8_t) (mask : Nat) : Bool :=
  (s_nCabinetLights.val &&& mask) != 0

/-! ## The gamma table -/

/-- The table `s_gamma8`. -/
def s_gamma8 : List uint8_t := [
    0,   0,   0,   0,   0,   0,   0,   0,   0,   0,   0,   0,   0,   0,   0,   0,
    0,   0,   0,   0,   0,   0,   0,   0,   0,   0,   0,   0,   1,   1,   1,   1,
    1,   1,   1,   1,   1,   1,   1,   1,   1,   2,   2,   2,   2,   2,   2,   2,
    2,   3,   3,   3,   3,   3,   3,   3,   4,   4,   4,   4,   4,   5,   5,   5,
    5,   6,   6,   6,   6,   7,   7,   7,   7,   8,   8,   8,   9,   9,   9,  10,
   10,  10,  11,  11,  11,  12,  12,  13,  13,  13,  14,  14,  15,  15,  16,  16,
   17,  17,  18,  18,  19,  19,  20,  20,  21,  21,  22,  22,  23,  24,  24,  25,
   25,  26,  27,  27,  28,  29,  29,  30,  31,  32,  32,  33,  34,  35,  35,  36,
   37,  38,  39,  39,  40,  41,  42,  43,  44,  45,  46,  47,  48,  49,  50,  50,
   51,  52,  54,  55,  56,  57,  58,  59,  60,  61,  62,  63,  64,  66,  67,  68,
   69,  70,  72,  73,  74,  75,  77,  78,  79,  81,  82,  83,  85,  86,  87,  89,
   90,  92,  93,  95,  96,  98,  99, 101, 102, 104, 105, 107, 109, 110, 112, 114,
  115, 117, 119, 120, 122, 124, 126, 127, 129, 131, 133, 135, 137, 138, 140, 142,
  144, 146, 148, 150, 152, 154, 156, 158, 160, 162, 164, 167, 169, 171, 173, 175,
  177, 180, 182, 184, 186, 189, 191, 193, 196, 198, 200, 203, 205, 208, 210, 213,
  215, 218, 220, 223, 225, 228, 231, 233, 236, 239, 241, 244, 247, 249, 252, 255
]

/-- The read `pgm_read_byte(&table[i])`: defined when `i` is inside the table. -/
def pgm_read_byte (table : List uint8_t) (i : Nat) : Option uint8_t :=
  table[i]?

/-! ## Counted loops over a pixel array -/

/-- The loop `for (i = lo; i < hi; i++) body`, the body acting on a state. -/
def forRange {σ : Type} (lo hi : Nat) (body : Nat → σ → σ) (s : σ) : σ :=
  (List.range' lo (hi - lo)).foldl (fun acc i => body i acc) s

/-- The loop `for (int i = lo; i < hi; i++) leds[i] = c;`. -/
def fill (leds : List CRGB) (lo hi : Nat) (c : CRGB) : List CRGB :=
  forRange lo hi (fun i acc => acc.set i c) leds

/-! ## The fade step (FastLED) -/

/-- Modelled from the spec: FastLED's `scale8` in its fixed form, applied by
`nscale8x3` to each channel: `(i * (scale + 1)) >> 8` in 16-bit arithmetic,
stored back into an 8-bit channel. -/
def scale8 (i scale : uint8_t) : uint8_t :=
  ⟨(i.val * (scale.val + 1)) % 65536 / 256 % 256, Nat.mod_lt _ (by decide)⟩

/-- Modelled from the spec: FastLED's `CRGB::nscale8`, scaling the three
channels of one pixel. -/
def CRGB.nscale8 (p : CRGB) (scale : uint8_t) : CRGB :=
  ⟨scale8 p.r scale, scale8 p.g scale, scale8 p.b scale⟩

/-- Modelled from the spec: FastLED's `nscale8(leds, num_leds, scale)`, the loop
`for (i = 0; i < num_leds; ++i) leds[i].nscale8(scale);`. -/
def nscale8 (leds : List CRGB) (num_leds : Nat) (scale : uint8_t) : List CRGB :=
  forRange 0 num_leds
    (fun i acc => match acc[i]? with
      | some p => acc.set i (p.nscale8 scale)
      | none => acc) leds

/-- Modelled from the spec: FastLED's `fadeToBlackBy(leds, num_leds, fadeBy)`,
which is `nscale8(leds, num_leds, 255 - fadeBy)`. With `FADE_RATE = 30` each
channel `v` becomes `v * 226 / 256`. -/
def fadeToBlackBy (leds : List CRGB) (num_leds : Nat) (fadeBy : uint8_t) : List CRGB :=
  nscale8 leds num_leds (255 - fadeBy)

/-! ## Gamma correction -/

/-- One pass of the body of the loop of `colorCorrect`, for pixel `nLED`:
the source pixel and the three table entries are read, then the destination
pixel is written. -/
def colorCorrectBody (st : State) (nLED : Nat) : Option State := do
  let src ← st.leds[nLED]?
  let r ← pgm_read_byte s_gamma8 src.r.val
  let g ← pgm_read_byte s_gamma8 src.g.val
  let b ← pgm_read_byte s_gamma8 src.b.val
  pure { st with framebuffer := st.framebuffer.set nLED ⟨r, g, b⟩ }

/-- The function `colorCorrect`: gamma correction of the LED array, from
`leds` into `framebuffer`. -/
def colorCorrect (st : State) : Option State :=
  (List.range' 0 NUM_LEDS).foldlM colorCorrectBody st

/-! ## The serial port (Arduino) -/

/-- Modelled from the spec: `Serial.available()`, the number of bytes that can
be read now. -/
def Serial.available (serial : List uint8_t) : Nat :=
  serial.length

/-- Modelled from the spec: `Serial.read()`, which hands out the first byte
available, together with the port left behind. -/
def Serial.read (serial : List uint8_t) : Option (uint8_t × List uint8_t) :=
  match serial with
  | [] => none
  | b :: rest => some (b, rest)

/-- Modelled from the spec: `Serial.readBytes(buffer, n)` as a blocking read of
exactly `n` bytes; on a port that never delivers `n` bytes the read is not
served. -/
def Serial.readBytes (serial : List uint8_t) (n : Nat) :
    Option (List uint8_t × List uint8_t) :=
  if n ≤ serial.length then some (serial.take n, serial.drop n) else none

/-- The value of a `char` to which the received byte `b` is assigned: the byte
itself where `char` is unsigned, its two's complement reading where `char` is
signed. -/
def toChar (charIsSigned : Bool) (b : uint8_t) : Int :=
  if charIsSigned && decide (128 ≤ b.val) then (b.val : Int) - 256 else (b.val : Int)

/-- The conversion of a `char` to `uint8_t` on assignment. -/
def toUInt8 (c : Int) : uint8_t :=
  ⟨(c % 256).toNat % 256, Nat.mod_lt _ (by decide)⟩

/-! ## The function `loop` -/

/-- The first statement of `loop` (the decoder): when a byte is available it
is read into a `char`; when it lies in `[0x30, 0x6F]` it becomes byte 0 of
`s_pLightData`, 13 more bytes are read behind it and `s_nCabinetLights` is set
to byte 0. -/
def loop_decode (charIsSigned : Bool) (st : State) (serial : List uint8_t) :
    Option (State × List uint8_t) :=
  if Serial.available serial != 0 then
    match Serial.read serial with
    | none => none
    | some (b, rest) =>
      let c := toChar charIsSigned b
      if 0x30 ≤ c ∧ c ≤ 0x6F then
        match Serial.readBytes rest 13 with
        | none => none
        | some (payload, rest1) =>
          let data := toUInt8 c :: payload
          some ({ st with s_pLightData := data, s_nCabinetLights := data.headD 0 }, rest1)
      else
        some (st, rest)
  else
    some (st, serial)

/-- The six conditional zone writes of `loop`, in the order of the source. -/
def loop_assign (s_nCabinetLights : uint8_t) (leds : List CRGB) : List CRGB :=
  let leds := if CABINET_LIGHT_ACTIVE s_nCabinetLights enumLightMaskMarqueeUpperLeft
    then fill leds 0 10 CRGB.Yellow else leds
  let leds := if CABINET_LIGHT_ACTIVE s_nCabinetLights enumLightMaskMarqueeLowerLeft
    then fill leds 10 20 CRGB.Red else leds
  let leds := if CABINET_LIGHT_ACTIVE s_nCabinetLights enumLightMaskBassLeft
    then fill leds 20 30 ⟨212, 0, 255⟩ else leds
  let leds := if CABINET_LIGHT_ACTIVE s_nCabinetLights enumLightMaskBassRight
    then fill leds 30 40 ⟨212, 0, 255⟩ else leds
  let leds := if CABINET_LIGHT_ACTIVE s_nCabinetLights enumLightMaskMarqueeLowerRight
    then fill leds 40 50 CRGB.Red else leds
  let leds := if CABINET_LIGHT_ACTIVE s_nCabinetLights enumLightMaskMarqueeUpperRight
    then fill leds 50 60 CRGB.Yellow else leds
  leds

/-- The statements of `loop` behind the decoder: fade, zone writes and gamma
correction. The frame handed to `FastLED.show()` is the `framebuffer` of the
result. -/
def loop_render (st : State) : Option State :=
  let st := { st with leds := fadeToBlackBy st.leds NUM_LEDS FADE_RATE }
  let st := { st with leds := loop_assign st.s_nCabinetLights st.leds }
  colorCorrect st

/-- The function `loop`: one tick. -/
def loop (charIsSigned : Bool) (st : State) (serial : List uint8_t) :
    Option (State × List uint8_t) :=
  match loop_decode charIsSigned st serial with
  | none => none
  | some (st1, serial1) =>
    match loop_render st1 with
    | none => none
    | some st2 => some (st2, serial1)

/-! ## Definitions used to state the properties -/

/-- The update of pixel `i` by `f`, when the array has a pixel `i`: the form
of one pass of a loop body that writes `leds[i]`. -/
def updateAt (f : CRGB → CRGB) (acc : List CRGB) (i : Nat) : List CRGB :=
  match acc[i]? with
  | some p => acc.set i (f p)
  | none => acc

/-- The entry of `s_gamma8` for the channel value `v` (the table has an entry
for each of the 256 values, see `pgm_read_byte_s_gamma8`). -/
def gamma8 (v : uint8_t) : uint8_t := s_gamma8.getD v.val 0

/-- The gamma-corrected pixel: each channel looked up in `s_gamma8`. -/
def correctPixel (src : CRGB) : CRGB := ⟨gamma8 src.r, gamma8 src.g, gamma8 src.b⟩

/-- The fade of one channel in `loop`: `scale8` by `255 - FADE_RATE`. -/
def fadeChannel (v : uint8_t) : uint8_t := scale8 v (255 - FADE_RATE)

/-- The fade of one pixel in `loop`. -/
def fadePixel (p : CRGB) : CRGB := p.nscale8 (255 - FADE_RATE)

/-- A row of the zone table: the bit of the light, the first pixel of its
range, the pixel behind its last one, and its colour. -/
structure Zone where
  mask : Nat
  lo : Nat
  hi : Nat
  colour : CRGB
deriving DecidableEq, Repr

/-- The zone table, read off the six conditional writes of `loop` in the
order of the source. -/
def zoneMap : List Zone := [
  ⟨enumLightMaskMarqueeUpperLeft, 0, 10, CRGB.Yellow⟩,
  ⟨enumLightMaskMarqueeLowerLeft, 10, 20, CRGB.Red⟩,
  ⟨enumLightMaskBassLeft, 20, 30, ⟨212, 0, 255⟩⟩,
  ⟨enumLightMaskBassRight, 30, 40, ⟨212, 0, 255⟩⟩,
  ⟨enumLightMaskMarqueeLowerRight, 40, 50, CRGB.Red⟩,
  ⟨enumLightMaskMarqueeUpperRight, 50, 60, CRGB.Yellow⟩]

/-- The pixel `j` lies in the range of the zone `z`. -/
def Zone.covers (z : Zone) (j : Nat) : Prop := z.lo ≤ j ∧ j < z.hi

instance (z : Zone) (j : Nat) : Decidable (z.covers j) := by
  unfold Zone.covers; infer_instance

/-- Two zones have no pixel in common. -/
def Zone.disjoint (z1 z2 : Zone) : Prop := ∀ j < NUM_LEDS, ¬ (z1.covers j ∧ z2.covers j)

instance (z1 z2 : Zone) : Decidable (z1.disjoint z2) := by
  unfold Zone.disjoint; infer_instance

/-- One conditional zone write of `loop`, for a row of the zone table. -/
def assignZone (s_nCabinetLights : uint8_t) (leds : List CRGB) (z : Zone) : List CRGB :=
  if CABINET_LIGHT_ACTIVE s_nCabinetLights z.mask then fill leds z.lo z.hi z.colour else leds

/-- The fade and zone writes of one tick, on the raw buffer alone. -/
def rawTick (s_nCabinetLights : uint8_t) (leds : List CRGB) : List CRGB :=
  loop_assign s_nCabinetLights (fadeToBlackBy leds NUM_LEDS FADE_RATE)

/-- The outcome of `n` successive calls of `loop`. -/
def ticks (charIsSigned : Bool) : Nat → State → List uint8_t → Option (State × List uint8_t)
  | 0, st, serial => some (st, serial)
  | n + 1, st, serial =>
    match loop charIsSigned st serial with
    | none => none
    | some (st1, serial1) => ticks charIsSigned n st1 serial1

/-- The outcome of `n` successive passes of the render statements of `loop`,
no frame being decoded in between. -/
def renderTicks : Nat → State → Option State
  | 0, st => some st
  | n + 1, st =>
    match loop_render st with
    | none => none
    | some st1 => renderTicks n st1

/-- A state of the sketch with a strip of 60 pixels, each pixel of the raw
buffer being (255, 100, 1), the receive buffer and the bitmask at their
initial value 0. -/
def sampleState : State :=
  ⟨List.replicate 60 ⟨255, 100, 1⟩, List.replicate 60 ⟨9, 9, 9⟩, List.replicate 14 0, 0⟩

/-- The state reached from `sampleState` by one render pass with all six
zones active (bitmask 0x3F): every pixel holds the colour of its zone. -/
def sampleLitState : State :=
  ⟨List.replicate 10 CRGB.Yellow ++ List.replicate 10 CRGB.Red ++
      List.replicate 20 ⟨212, 0, 255⟩ ++ List.replicate 10 CRGB.Red ++
      List.replicate 10 CRGB.Yellow,
    List.replicate 10 ⟨255, 255, 0⟩ ++ List.replicate 10 ⟨255, 0, 0⟩ ++
      List.replicate 20 ⟨152, 0, 255⟩ ++ List.replicate 10 ⟨255, 0, 0⟩ ++
      List.replicate 10 ⟨255, 255, 0⟩,
    List.replicate 14 0, 0x3F⟩

/-- The blocking read of `loop`, if any, is served on the port `serial`: when
the first byte is a marker, 13 more bytes follow it. -/
def frameServed (serial : List uint8_t) : Prop :=
  match serial with
  | [] => True
  | b :: rest => (0x30 ≤ b.val ∧ b.val ≤ 0x6F) → 13 ≤ rest.length

instance (serial : List uint8_t) : Decidable (frameServed serial) := by
  unfold frameServed
  cases serial <;> infer_instance

/-- A frame of the wire format: byte 0 and the payload behind it. -/
abbrev Frame := uint8_t × List uint8_t

/-- A frame is well formed: byte 0 lies in `[0x30, 0x6F]` and 13 payload bytes
follow, 14 bytes in all. -/
def Frame.wellFormed (f : Frame) : Prop :=
  (0x30 ≤ f.1.val ∧ f.1.val ≤ 0x6F) ∧ f.2.length = 13

instance (f : Frame) : Decidable f.wellFormed := by
  unfold Frame.wellFormed; infer_instance

/-- The byte stream made of the frames `fs`, one behind the other. -/
def streamOfFrames : List Frame → List uint8_t
  | [] => []
  | f :: fs => f.1 :: (f.2 ++ streamOfFrames fs)

/-- The byte of value `n` (modulo 256) on the wire. -/
def toByte (n : Nat) : uint8_t := ⟨n % 256, Nat.mod_lt _ (by decide)⟩

/-- The state in which `loop` is first called: `leds` and `s_pLightData` are
zero-initialised globals, `s_nCabinetLights` is initialised to 0, and `setup`
leaves the last colour of its test sequence, (0, 0, 255), in `framebuffer`. -/
def powerOnState : State :=
  ⟨List.replicate 60 ⟨0, 0, 0⟩, List.replicate 60 ⟨0, 0, 255⟩, List.replicate 14 0, 0⟩

/-- The blocking reads of `n` successive ticks are all served on the port
`serial`: a tick that finds a marker finds 13 more bytes behind it, and takes
them; a tick that finds any other byte takes that byte alone. -/
def readsServed : Nat → List uint8_t → Prop
  | 0, _ => True
  | _ + 1, [] => True
  | n + 1, b :: rest =>
    if 0x30 ≤ b.val ∧ b.val ≤ 0x6F then 13 ≤ rest.length ∧ readsServed n (rest.drop 13)
    else readsServed n rest

instance readsServed.instDecidable :
    (n : Nat) → (serial : List uint8_t) → Decidable (readsServed n serial)
  | 0, _ => isTrue trivial
  | _ + 1, [] => isTrue trivial
  | n + 1, b :: rest =>
    if hb : 0x30 ≤ b.val ∧ b.val ≤ 0x6F then
      if h13 : 13 ≤ rest.length then
        match readsServed.instDecidable n (rest.drop 13) with
        | isTrue h => isTrue (by unfold readsServed; rw [if_pos hb]; exact ⟨h13, h⟩)
        | isFalse h => isFalse (by unfold readsServed; rw [if_pos hb]; exact fun hc => h hc.2)
      else isFalse (by unfold readsServed; rw [if_pos hb]; exact fun hc => h13 hc.1)
    else
      match readsServed.instDecidable n rest with
      | isTrue h => isTrue (by unfold readsServed; rw [if_neg hb]; exact h)
      | isFalse h => isFalse (by unfold readsServed; rw [if_neg hb]; exact h)

/-! ## Lemmas on counted loops -/

theorem getElem?_updateAt (f : CRGB → CRGB) (acc : List CRGB) (i j : Nat) :
    (updateAt f acc i)[j]? = if i = j then acc[j]?.map f else acc[j]? := by
  unfold updateAt
  cases h : acc[i]? with
  | none =>
    by_cases hij : i = j
    · subst hij; simp [h]
    · simp [hij]
  | some p =>
    have hlt : i < acc.length := by
      by_contra hge
      rw [List.getElem?_eq_none (by omega)] at h
      cases h
    by_cases hij : i = j
    · subst hij; simp [List.getElem?_set, hlt, h]
    · simp [List.getElem?_set, hij]

theorem getElem?_foldl_updateAt (f : CRGB → CRGB) (n : Nat) :
    ∀ (lo : Nat) (l : List CRGB) (j : Nat),
      ((List.range' lo n).foldl (updateAt f) l)[j]? =
        if lo ≤ j ∧ j < lo + n then l[j]?.map f else l[j]? := by
  induction n with
  | zero =>
    intro lo l j
    have h : ¬ (lo ≤ j ∧ j < lo) := by omega
    simp [h]
  | succ n ih =>
    intro lo l j
    rw [List.range'_succ, List.foldl_cons, ih, getElem?_updateAt]
    by_cases h1 : lo = j
    · subst h1; simp
    · by_cases h2 : lo + 1 ≤ j ∧ j < lo + 1 + n
      · have h3 : lo ≤ j ∧ j < lo + (n + 1) := by omega
        simp [h1, h2, h3]
      · have h3 : ¬ (lo ≤ j ∧ j < lo + (n + 1)) := by omega
        simp [h1, h2, h3]

theorem set_eq_updateAt (c : CRGB) (acc : List CRGB) (i : Nat) :
    acc.set i c = updateAt (fun _ => c) acc i := by
  apply List.ext_getElem?
  intro j
  rw [getElem?_updateAt, List.getElem?_set]
  by_cases hij : i = j
  · subst hij
    by_cases hlt : i < acc.length
    · simp [hlt, List.getElem?_eq_getElem hlt]
    · simp [hlt, List.getElem?_eq_none (Nat.le_of_not_lt hlt)]
  · simp [hij]

theorem getElem?_fill (leds : List CRGB) (lo hi : Nat) (c : CRGB) (j : Nat) :
    (fill leds lo hi c)[j]? =
      if lo ≤ j ∧ j < hi then leds[j]?.map (fun _ => c) else leds[j]? := by
  have hbody : (fun (acc : List CRGB) (i : Nat) => acc.set i c) = updateAt (fun _ => c) := by
    funext acc i; exact set_eq_updateAt c acc i
  unfold fill forRange
  rw [hbody, getElem?_foldl_updateAt]
  by_cases h : lo ≤ j ∧ j < hi
  · have h2 : lo ≤ j ∧ j < lo + (hi - lo) := by omega
    simp [h, h2]
  · have h2 : ¬ (lo ≤ j ∧ j < lo + (hi - lo)) := by omega
    simp [h, h2]

theorem getElem?_nscale8 (leds : List CRGB) (num_leds : Nat) (scale : uint8_t) (j : Nat) :
    (nscale8 leds num_leds scale)[j]? =
      if j < num_leds then leds[j]?.map (fun p => p.nscale8 scale) else leds[j]? := by
  have hbody : (fun (acc : List CRGB) (i : Nat) => match acc[i]? with
      | some p => acc.set i (p.nscale8 scale)
      | none => acc) = updateAt (fun p => p.nscale8 scale) := by
    funext acc i; rfl
  unfold nscale8 forRange
  rw [hbody, getElem?_foldl_updateAt]
  simp


set_option maxRecDepth 4096 in
theorem s_gamma8_length : s_gamma8.length = 256 := by decide

theorem pgm_read_byte_s_gamma8 (v : uint8_t) :
    pgm_read_byte s_gamma8 v.val = some (gamma8 v) := by
  have hlt : v.val < s_gamma8.length := by rw [s_gamma8_length]; exact v.isLt
  unfold pgm_read_byte gamma8
  rw [List.getD_eq_getElem?_getD, List.getElem?_eq_getElem hlt]
  rfl

theorem colorCorrectBody_eq (st : State) (nLED : Nat) (src : CRGB)
    (h : st.leds[nLED]? = some src) :
    colorCorrectBody st nLED =
      some { st with framebuffer := st.framebuffer.set nLED (correctPixel src) } := by
  unfold colorCorrectBody
  simp [h, pgm_read_byte_s_gamma8, correctPixel]

theorem foldlM_colorCorrectBody (n : Nat) :
    ∀ (lo : Nat) (st : State), lo + n ≤ st.leds.length →
      ∃ fb : List CRGB,
        (List.range' lo n).foldlM colorCorrectBody st = some { st with framebuffer := fb } ∧
        fb.length = st.framebuffer.length ∧
        ∀ j : Nat, fb[j]? =
          if lo ≤ j ∧ j < lo + n ∧ j < st.framebuffer.length
          then st.leds[j]?.map correctPixel else st.framebuffer[j]? := by
  induction n with
  | zero =>
    intro lo st _
    refine ⟨st.framebuffer, by simp, rfl, ?_⟩
    intro j
    have h : ¬ (lo ≤ j ∧ j < lo + 0 ∧ j < st.framebuffer.length) := by omega
    simp only [h, if_false]
  | succ n ih =>
    intro lo st hlen
    have hlo : lo < st.leds.length := by omega
    have hsrc : st.leds[lo]? = some (st.leds[lo]) := List.getElem?_eq_getElem hlo
    obtain ⟨fb, hfold, hfblen, hget⟩ :=
      ih (lo + 1) { st with framebuffer := st.framebuffer.set lo (correctPixel st.leds[lo]) }
        (by simp only; omega)
    refine ⟨fb, ?_, ?_, ?_⟩
    · rw [List.range'_succ, List.foldlM_cons, colorCorrectBody_eq st lo _ hsrc]
      simpa using hfold
    · simpa using hfblen
    · intro j
      rw [hget j]
      simp only [List.length_set, List.getElem?_set]
      by_cases h1 : lo = j
      · subst h1
        by_cases h2 : lo < st.framebuffer.length
        · have h3 : ¬ (lo + 1 ≤ lo ∧ lo < lo + 1 + n ∧ lo < st.framebuffer.length) := by omega
          have h4 : lo ≤ lo ∧ lo < lo + (n + 1) ∧ lo < st.framebuffer.length := by omega
          simp [h3, h4, h2, hsrc]
        · have h3 : ¬ (lo + 1 ≤ lo ∧ lo < lo + 1 + n ∧ lo < st.framebuffer.length) := by omega
          have h4 : ¬ (lo ≤ lo ∧ lo < lo + (n + 1) ∧ lo < st.framebuffer.length) := by omega
          simp [h3, h4, h2]
          omega
      · by_cases h2 : lo + 1 ≤ j ∧ j < lo + 1 + n ∧ j < st.framebuffer.length
        · have h4 : lo ≤ j ∧ j < lo + (n + 1) ∧ j < st.framebuffer.length := by omega
          simp [h2, h4]
        · have h4 : ¬ (lo ≤ j ∧ j < lo + (n + 1) ∧ j < st.framebuffer.length) := by omega
          simp [h1, h2, h4]


theorem length_updateAt (f : CRGB → CRGB) (acc : List CRGB) (i : Nat) :
    (updateAt f acc i).length = acc.length := by
  unfold updateAt
  cases acc[i]? <;> simp

theorem length_foldl_updateAt (f : CRGB → CRGB) (is : List Nat) :
    ∀ l : List CRGB, (is.foldl (updateAt f) l).length = l.length := by
  induction is with
  | nil => intro l; rfl
  | cons i is ih => intro l; rw [List.foldl_cons, ih, length_updateAt]

theorem length_fill (leds : List CRGB) (lo hi : Nat) (c : CRGB) :
    (fill leds lo hi c).length = leds.length := by
  have hbody : (fun (acc : List CRGB) (i : Nat) => acc.set i c) = updateAt (fun _ => c) := by
    funext acc i; exact set_eq_updateAt c acc i
  unfold fill forRange
  rw [hbody, length_foldl_updateAt]

theorem length_nscale8 (leds : List CRGB) (num_leds : Nat) (scale : uint8_t) :
    (nscale8 leds num_leds scale).length = leds.length := by
  have hbody : (fun (acc : List CRGB) (i : Nat) => match acc[i]? with
      | some p => acc.set i (p.nscale8 scale)
      | none => acc) = updateAt (fun p => p.nscale8 scale) := by
    funext acc i; rfl
  unfold nscale8 forRange
  rw [hbody, length_foldl_updateAt]

theorem length_fadeToBlackBy (leds : List CRGB) (num_leds : Nat) (fadeBy : uint8_t) :
    (fadeToBlackBy leds num_leds fadeBy).length = leds.length :=
  length_nscale8 leds num_leds (255 - fadeBy)

theorem fadeToBlackBy_eq_map (leds : List CRGB) (h : leds.length ≤ NUM_LEDS) :
    fadeToBlackBy leds NUM_LEDS FADE_RATE = leds.map fadePixel := by
  apply List.ext_getElem?
  intro j
  unfold fadeToBlackBy
  rw [getElem?_nscale8, List.getElem?_map]
  by_cases hj : j < NUM_LEDS
  · simp only [hj, if_true]; rfl
  · simp only [hj, if_false]
    rw [List.getElem?_eq_none (by omega)]; rfl

theorem getElem?_assignZone (m : uint8_t) (leds : List CRGB) (z : Zone) (j : Nat) :
    (assignZone m leds z)[j]? =
      if CABINET_LIGHT_ACTIVE m z.mask = true ∧ z.lo ≤ j ∧ j < z.hi
      then leds[j]?.map (fun _ => z.colour) else leds[j]? := by
  unfold assignZone
  by_cases hc : CABINET_LIGHT_ACTIVE m z.mask = true
  · by_cases hr : z.lo ≤ j ∧ j < z.hi
    · simp [hc, hr, getElem?_fill]
    · have hr2 : ¬ (z.lo ≤ j ∧ j < z.hi) := hr
      simp [hc, getElem?_fill, hr2]
  · simp [hc]

theorem loop_assign_eq_foldl (m : uint8_t) (leds : List CRGB) :
    loop_assign m leds = zoneMap.foldl (assignZone m) leds := rfl

theorem length_foldl_assignZone (m : uint8_t) (zs : List Zone) :
    ∀ l : List CRGB, (zs.foldl (assignZone m) l).length = l.length := by
  induction zs with
  | nil => intro l; rfl
  | cons z zs ih =>
    intro l
    rw [List.foldl_cons, ih]
    unfold assignZone
    split
    · exact length_fill _ _ _ _
    · rfl

theorem length_loop_assign (m : uint8_t) (leds : List CRGB) :
    (loop_assign m leds).length = leds.length := by
  rw [loop_assign_eq_foldl, length_foldl_assignZone]


theorem getElem?_foldl_assignZone_skip (m : uint8_t) (j : Nat) (zs : List Zone) :
    ∀ l : List CRGB, (∀ z ∈ zs, ¬ z.covers j) → (zs.foldl (assignZone m) l)[j]? = l[j]? := by
  induction zs with
  | nil => intro l _; rfl
  | cons z0 zs ih =>
    intro l h
    have h0 : ¬ (z0.lo ≤ j ∧ j < z0.hi) := h z0 (List.mem_cons_self _ _)
    rw [List.foldl_cons, ih _ (fun z hz => h z (List.mem_cons_of_mem _ hz)),
      getElem?_assignZone]
    have h1 : ¬ (CABINET_LIGHT_ACTIVE m z0.mask = true ∧ z0.lo ≤ j ∧ j < z0.hi) :=
      fun hc => h0 hc.2
    simp only [h1, if_false]

theorem getElem?_foldl_assignZone (m : uint8_t) (j : Nat) (hj : j < NUM_LEDS) (zs : List Zone) :
    ∀ (l : List CRGB) (z : Zone), zs.Pairwise Zone.disjoint → z ∈ zs → z.covers j →
      (zs.foldl (assignZone m) l)[j]? =
        if CABINET_LIGHT_ACTIVE m z.mask = true
        then l[j]?.map (fun _ => z.colour) else l[j]? := by
  induction zs with
  | nil => intro l z _ hz; cases hz
  | cons z0 zs ih =>
    intro l z hp hz hc
    rw [List.pairwise_cons] at hp
    rw [List.foldl_cons]
    by_cases h0 : z0.covers j
    · have hskip : ∀ y ∈ zs, ¬ y.covers j := fun y hy hcy => hp.1 y hy j hj ⟨h0, hcy⟩
      have hzz : z = z0 := by
        rcases List.mem_cons.mp hz with h | h
        · exact h
        · exact absurd hc (hskip z h)
      subst hzz
      rw [getElem?_foldl_assignZone_skip m j zs _ hskip, getElem?_assignZone]
      by_cases ha : CABINET_LIGHT_ACTIVE m z.mask = true
      · have hfull : CABINET_LIGHT_ACTIVE m z.mask = true ∧ z.lo ≤ j ∧ j < z.hi := ⟨ha, h0⟩
        rw [if_pos hfull, if_pos ha]
      · have hfull : ¬ (CABINET_LIGHT_ACTIVE m z.mask = true ∧ z.lo ≤ j ∧ j < z.hi) :=
          fun h => ha h.1
        rw [if_neg hfull, if_neg ha]
    · have hz2 : z ∈ zs := by
        rcases List.mem_cons.mp hz with h | h
        · subst h; exact absurd hc h0
        · exact h
      rw [ih _ z hp.2 hz2 hc, getElem?_assignZone]
      have hfull : ¬ (CABINET_LIGHT_ACTIVE m z0.mask = true ∧ z0.lo ≤ j ∧ j < z0.hi) :=
        fun h => h0 h.2
      simp only [hfull, if_false]

set_option maxRecDepth 100000 in
theorem zoneMap_pairwise_disjoint : zoneMap.Pairwise Zone.disjoint := by decide

theorem getElem?_loop_assign_zone (m : uint8_t) (leds : List CRGB) (z : Zone) (j : Nat)
    (hj : j < NUM_LEDS) (hz : z ∈ zoneMap) (hc : z.covers j) :
    (loop_assign m leds)[j]? =
      if CABINET_LIGHT_ACTIVE m z.mask = true
      then leds[j]?.map (fun _ => z.colour) else leds[j]? := by
  rw [loop_assign_eq_foldl]
  exact getElem?_foldl_assignZone m j hj zoneMap leds z zoneMap_pairwise_disjoint hz hc


theorem length_rawTick (m : uint8_t) (leds : List CRGB) :
    (rawTick m leds).length = leds.length := by
  unfold rawTick
  rw [length_loop_assign, length_fadeToBlackBy]

/-! ## Lemmas on gamma correction and the render step -/

theorem colorCorrect_eq (st : State) (hl : st.leds.length = NUM_LEDS)
    (hf : st.framebuffer.length = NUM_LEDS) :
    colorCorrect st = some { st with framebuffer := st.leds.map correctPixel } := by
  obtain ⟨fb, hfold, _, hget⟩ := foldlM_colorCorrectBody NUM_LEDS 0 st (by omega)
  unfold colorCorrect
  rw [hfold]
  have hfb : fb = st.leds.map correctPixel := by
    apply List.ext_getElem?
    intro j
    rw [hget j, List.getElem?_map]
    by_cases hj : j < NUM_LEDS
    · have h : 0 ≤ j ∧ j < 0 + NUM_LEDS ∧ j < st.framebuffer.length := by omega
      rw [if_pos h]
    · have h : ¬ (0 ≤ j ∧ j < 0 + NUM_LEDS ∧ j < st.framebuffer.length) := by omega
      rw [if_neg h, List.getElem?_eq_none (by omega), List.getElem?_eq_none (by omega)]
      rfl
  rw [hfb]

theorem loop_render_eq (st : State) (hl : st.leds.length = NUM_LEDS)
    (hf : st.framebuffer.length = NUM_LEDS) :
    loop_render st = some
      { st with
        leds := rawTick st.s_nCabinetLights st.leds,
        framebuffer := (rawTick st.s_nCabinetLights st.leds).map correctPixel } := by
  unfold loop_render
  simp only []
  rw [colorCorrect_eq _ (by simpa using (length_rawTick st.s_nCabinetLights st.leds).trans hl)
    (by simpa using hf)]
  rfl

/-! ## Lemmas on the decoder -/

theorem marker_iff_toChar : ∀ (charIsSigned : Bool) (b : uint8_t),
    (0x30 ≤ toChar charIsSigned b ∧ toChar charIsSigned b ≤ 0x6F) ↔
      (0x30 ≤ b.val ∧ b.val ≤ 0x6F) := by
  decide!

theorem toUInt8_toChar : ∀ (charIsSigned : Bool) (b : uint8_t),
    toUInt8 (toChar charIsSigned b) = b := by
  decide!

theorem loop_decode_nil (cs : Bool) (st : State) : loop_decode cs st [] = some (st, []) := rfl

theorem loop_decode_not_marker (cs : Bool) (st : State) (b : uint8_t) (rest : List uint8_t)
    (hb : ¬ (0x30 ≤ b.val ∧ b.val ≤ 0x6F)) :
    loop_decode cs st (b :: rest) = some (st, rest) := by
  have hc : ¬ (0x30 ≤ toChar cs b ∧ toChar cs b ≤ 0x6F) :=
    fun h => hb ((marker_iff_toChar cs b).mp h)
  simp only [loop_decode, Serial.available, Serial.read, List.length_cons]
  rw [if_neg hc]
  rfl

theorem loop_decode_marker (cs : Bool) (st : State) (b : uint8_t) (rest : List uint8_t)
    (hb : 0x30 ≤ b.val ∧ b.val ≤ 0x6F) (hrest : 13 ≤ rest.length) :
    loop_decode cs st (b :: rest) =
      some ({ st with s_pLightData := b :: rest.take 13, s_nCabinetLights := b },
        rest.drop 13) := by
  have hc : 0x30 ≤ toChar cs b ∧ toChar cs b ≤ 0x6F := (marker_iff_toChar cs b).mpr hb
  simp only [loop_decode, Serial.available, Serial.read, Serial.readBytes, List.length_cons]
  rw [if_pos hc, if_pos hrest, toUInt8_toChar]
  rfl


/-! ## Lemmas on one tick -/

theorem loop_marker_eq (cs : Bool) (st : State) (b : uint8_t) (rest : List uint8_t)
    (hb : 0x30 ≤ b.val ∧ b.val ≤ 0x6F) (hrest : 13 ≤ rest.length)
    (hl : st.leds.length = NUM_LEDS) (hf : st.framebuffer.length = NUM_LEDS) :
    loop cs st (b :: rest) = some
      ({ leds := rawTick b st.leds,
         framebuffer := (rawTick b st.leds).map correctPixel,
         s_pLightData := b :: rest.take 13,
         s_nCabinetLights := b }, rest.drop 13) := by
  unfold loop
  rw [loop_decode_marker cs st b rest hb hrest]
  simp only []
  rw [loop_render_eq ⟨st.leds, st.framebuffer, b :: rest.take 13, b⟩ hl hf]

theorem loop_not_marker_eq (cs : Bool) (st : State) (b : uint8_t) (rest : List uint8_t)
    (hb : ¬ (0x30 ≤ b.val ∧ b.val ≤ 0x6F))
    (hl : st.leds.length = NUM_LEDS) (hf : st.framebuffer.length = NUM_LEDS) :
    loop cs st (b :: rest) = some
      ({ st with
         leds := rawTick st.s_nCabinetLights st.leds,
         framebuffer := (rawTick st.s_nCabinetLights st.leds).map correctPixel }, rest) := by
  unfold loop
  rw [loop_decode_not_marker cs st b rest hb]
  simp only []
  rw [loop_render_eq _ hl hf]

theorem loop_nil_eq (cs : Bool) (st : State)
    (hl : st.leds.length = NUM_LEDS) (hf : st.framebuffer.length = NUM_LEDS) :
    loop cs st [] = some
      ({ st with
         leds := rawTick st.s_nCabinetLights st.leds,
         framebuffer := (rawTick st.s_nCabinetLights st.leds).map correctPixel }, []) := by
  unfold loop
  rw [loop_decode_nil cs st]
  simp only []
  rw [loop_render_eq _ hl hf]

theorem active_iff (m : uint8_t) (mask : Nat) :
    CABINET_LIGHT_ACTIVE m mask = true ↔ m.val &&& mask ≠ 0 := by
  simp [CABINET_LIGHT_ACTIVE]

theorem getElem?_loop_assign_of_covers (m : uint8_t) (leds : List CRGB) (z : Zone) (j : Nat)
    (hl : leds.length = NUM_LEDS) (hz : z ∈ zoneMap) (hc : z.covers j) (hj : j < NUM_LEDS) :
    (loop_assign m leds)[j]? = if m.val &&& z.mask ≠ 0 then some z.colour else leds[j]? := by
  rw [getElem?_loop_assign_zone m leds z j hj hz hc]
  have hget : leds[j]? = some leds[j] := List.getElem?_eq_getElem (by omega)
  by_cases ha : m.val &&& z.mask ≠ 0
  · rw [if_pos ha, if_pos ((active_iff m z.mask).mpr ha), hget]; rfl
  · rw [if_neg ha, if_neg (fun h => ha ((active_iff m z.mask).mp h))]

theorem getElem?_rawTick_of_covers (m : uint8_t) (leds : List CRGB) (z : Zone) (j : Nat)
    (hl : leds.length = NUM_LEDS) (hz : z ∈ zoneMap) (hc : z.covers j) (hj : j < NUM_LEDS) :
    (rawTick m leds)[j]? =
      if m.val &&& z.mask ≠ 0 then some z.colour else leds[j]?.map fadePixel := by
  unfold rawTick
  rw [getElem?_loop_assign_of_covers m _ z j
    ((length_fadeToBlackBy _ _ _).trans hl) hz hc hj,
    fadeToBlackBy_eq_map leds (by omega), List.getElem?_map]


theorem zone_of_pixel (j : Nat) (hj : j < NUM_LEDS) : ∃ z ∈ zoneMap, z.covers j := by
  unfold NUM_LEDS at hj
  have hcov : ∀ (mask lo hi : Nat) (c : CRGB), lo ≤ j ∧ j < hi →
      (⟨mask, lo, hi, c⟩ : Zone).covers j := fun _ _ _ _ h => h
  by_cases h1 : j < 10
  · exact ⟨⟨enumLightMaskMarqueeUpperLeft, 0, 10, CRGB.Yellow⟩, by simp [zoneMap],
      hcov _ _ _ _ ⟨by omega, by omega⟩⟩
  by_cases h2 : j < 20
  · exact ⟨⟨enumLightMaskMarqueeLowerLeft, 10, 20, CRGB.Red⟩, by simp [zoneMap],
      hcov _ _ _ _ ⟨by omega, by omega⟩⟩
  by_cases h3 : j < 30
  · exact ⟨⟨enumLightMaskBassLeft, 20, 30, ⟨212, 0, 255⟩⟩, by simp [zoneMap],
      hcov _ _ _ _ ⟨by omega, by omega⟩⟩
  by_cases h4 : j < 40
  · exact ⟨⟨enumLightMaskBassRight, 30, 40, ⟨212, 0, 255⟩⟩, by simp [zoneMap],
      hcov _ _ _ _ ⟨by omega, by omega⟩⟩
  by_cases h5 : j < 50
  · exact ⟨⟨enumLightMaskMarqueeLowerRight, 40, 50, CRGB.Red⟩, by simp [zoneMap],
      hcov _ _ _ _ ⟨by omega, by omega⟩⟩
  · exact ⟨⟨enumLightMaskMarqueeUpperRight, 50, 60, CRGB.Yellow⟩, by simp [zoneMap],
      hcov _ _ _ _ ⟨by omega, by omega⟩⟩

theorem covers_lt_NUM_LEDS (z : Zone) (hz : z ∈ zoneMap) (j : Nat) (hc : z.covers j) :
    j < NUM_LEDS := by
  simp only [zoneMap, List.mem_cons, List.mem_singleton, List.not_mem_nil, or_false] at hz
  unfold Zone.covers at hc
  unfold NUM_LEDS
  rcases hz with rfl | rfl | rfl | rfl | rfl | rfl <;> simp only [] at hc <;> omega

/-- The six rows of the zone table, written out: the pixel `j` of the strip
after the zone writes with bitmask `m`, `old` standing for its value before. -/
theorem zone_rows (m : uint8_t) (j : Nat) (old : Option CRGB) (new : Option CRGB)
    (h : ∀ z ∈ zoneMap, z.covers j → new = if m.val &&& z.mask ≠ 0 then some z.colour else old) :
    (j < 10 → new = if m.val &&& 0x01 ≠ 0 then some ⟨255, 255, 0⟩ else old) ∧
    (10 ≤ j ∧ j < 20 → new = if m.val &&& 0x04 ≠ 0 then some ⟨255, 0, 0⟩ else old) ∧
    (20 ≤ j ∧ j < 30 → new = if m.val &&& 0x10 ≠ 0 then some ⟨212, 0, 255⟩ else old) ∧
    (30 ≤ j ∧ j < 40 → new = if m.val &&& 0x20 ≠ 0 then some ⟨212, 0, 255⟩ else old) ∧
    (40 ≤ j ∧ j < 50 → new = if m.val &&& 0x08 ≠ 0 then some ⟨255, 0, 0⟩ else old) ∧
    (50 ≤ j ∧ j < 60 → new = if m.val &&& 0x02 ≠ 0 then some ⟨255, 255, 0⟩ else old) := by
  refine ⟨fun hj => ?_, fun hj => ?_, fun hj => ?_, fun hj => ?_, fun hj => ?_, fun hj => ?_⟩
  · exact h ⟨enumLightMaskMarqueeUpperLeft, 0, 10, CRGB.Yellow⟩ (by simp [zoneMap])
      ⟨Nat.zero_le j, hj⟩
  · exact h ⟨enumLightMaskMarqueeLowerLeft, 10, 20, CRGB.Red⟩ (by simp [zoneMap]) hj
  · exact h ⟨enumLightMaskBassLeft, 20, 30, ⟨212, 0, 255⟩⟩ (by simp [zoneMap]) hj
  · exact h ⟨enumLightMaskBassRight, 30, 40, ⟨212, 0, 255⟩⟩ (by simp [zoneMap]) hj
  · exact h ⟨enumLightMaskMarqueeLowerRight, 40, 50, CRGB.Red⟩ (by simp [zoneMap]) hj
  · exact h ⟨enumLightMaskMarqueeUpperRight, 50, 60, CRGB.Yellow⟩ (by simp [zoneMap]) hj


/-! ## Lemmas on the gamma table and the fade -/

theorem gamma8_monotone : Monotone gamma8 := by
  rw [Fin.monotone_iff_le_succ]
  decide!

theorem fadeChannel_val : ∀ v : uint8_t, (fadeChannel v).val = v.val * 226 / 256 := by
  decide!

theorem fadeChannel_iterate_32 : ∀ v : uint8_t, fadeChannel^[32] v = 0 := by
  decide!

theorem fadeChannel_iterate_zero (n : Nat) : fadeChannel^[n] 0 = 0 := by
  induction n with
  | zero => rfl
  | succ n ih => rw [Function.iterate_succ_apply', ih]; rfl

theorem fadeChannel_iterate_of_le (n : Nat) (hn : 32 ≤ n) (v : uint8_t) :
    fadeChannel^[n] v = 0 := by
  obtain ⟨k, rfl⟩ : ∃ k, n = k + 32 := ⟨n - 32, by omega⟩
  rw [Function.iterate_add_apply, fadeChannel_iterate_32, fadeChannel_iterate_zero]

theorem fadePixel_iterate (n : Nat) (p : CRGB) :
    fadePixel^[n] p = ⟨fadeChannel^[n] p.r, fadeChannel^[n] p.g, fadeChannel^[n] p.b⟩ := by
  induction n generalizing p with
  | zero => rfl
  | succ n ih => rw [Function.iterate_succ_apply, ih]; rfl

theorem fadePixel_iterate_of_le (n : Nat) (hn : 32 ≤ n) (p : CRGB) :
    fadePixel^[n] p = CRGB.Black := by
  rw [fadePixel_iterate, fadeChannel_iterate_of_le n hn, fadeChannel_iterate_of_le n hn,
    fadeChannel_iterate_of_le n hn]
  rfl

theorem rawTick_eq_map_of_inactive (m : uint8_t) (hm : m.val &&& 0x3F = 0)
    (leds : List CRGB) (hl : leds.length = NUM_LEDS) :
    rawTick m leds = leds.map fadePixel := by
  apply List.ext_getElem?
  intro j
  by_cases hj : j < NUM_LEDS
  · obtain ⟨z, hz, hc⟩ := zone_of_pixel j hj
    rw [getElem?_rawTick_of_covers m leds z j hl hz hc hj, List.getElem?_map]
    have hzero : m.val &&& z.mask = 0 := by
      have h2 : m.val &&& z.mask = (m.val &&& 0x3F) &&& z.mask := by
        rw [Nat.land_assoc]
        congr 1
        simp only [zoneMap, List.mem_cons, List.mem_singleton, List.not_mem_nil, or_false]
          at hz
        rcases hz with rfl | rfl | rfl | rfl | rfl | rfl <;> rfl
      rw [h2, hm, Nat.zero_and]
    rw [if_neg (fun h => h hzero)]
  · rw [List.getElem?_eq_none (by rw [length_rawTick]; omega),
      List.getElem?_eq_none (by rw [List.length_map]; omega)]

theorem rawTick_iterate_of_inactive (m : uint8_t) (hm : m.val &&& 0x3F = 0) (n : Nat) :
    ∀ leds : List CRGB, leds.length = NUM_LEDS →
      (rawTick m)^[n] leds = leds.map (fadePixel^[n]) := by
  induction n with
  | zero => intro leds _; simp
  | succ n ih =>
    intro leds hl
    rw [Function.iterate_succ_apply, rawTick_eq_map_of_inactive m hm leds hl,
      ih _ (by rw [List.length_map]; exact hl), List.map_map]
    rfl

theorem map_iterate_fadePixel_of_le (n : Nat) (hn : 32 ≤ n) (leds : List CRGB) :
    leds.map (fadePixel^[n]) = List.replicate leds.length CRGB.Black := by
  apply List.ext_getElem?
  intro j
  rw [List.getElem?_map, List.getElem?_replicate]
  by_cases hj : j < leds.length
  · rw [if_pos hj, List.getElem?_eq_getElem hj, Option.map_some', fadePixel_iterate_of_le n hn]
  · rw [if_neg hj, List.getElem?_eq_none (by omega)]; rfl


theorem fadeToBlackBy_iterate (n : Nat) :
    ∀ leds : List CRGB, leds.length ≤ NUM_LEDS →
      (fun l => fadeToBlackBy l NUM_LEDS FADE_RATE)^[n] leds = leds.map (fadePixel^[n]) := by
  induction n with
  | zero => intro leds _; simp
  | succ n ih =>
    intro leds hl
    rw [Function.iterate_succ_apply, fadeToBlackBy_eq_map leds hl,
      ih _ (by rw [List.length_map]; exact hl), List.map_map]
    rfl

/-! ## Lemmas on sequences of ticks -/

theorem renderTicks_lengths (k : Nat) :
    ∀ (st stX : State), st.leds.length = NUM_LEDS → st.framebuffer.length = NUM_LEDS →
      renderTicks k st = some stX →
      stX.leds.length = NUM_LEDS ∧ stX.framebuffer.length = NUM_LEDS ∧
        stX.s_nCabinetLights = st.s_nCabinetLights := by
  induction k with
  | zero =>
    intro st stX hl hf h
    cases h
    exact ⟨hl, hf, rfl⟩
  | succ k ih =>
    intro st stX hl hf h
    have hl1 : (rawTick st.s_nCabinetLights st.leds).length = NUM_LEDS :=
      (length_rawTick _ _).trans hl
    have hf1 : ((rawTick st.s_nCabinetLights st.leds).map correctPixel).length = NUM_LEDS := by
      rw [List.length_map]; exact hl1
    have h2 : renderTicks k
        { st with
          leds := rawTick st.s_nCabinetLights st.leds,
          framebuffer := (rawTick st.s_nCabinetLights st.leds).map correctPixel } =
        some stX := by
      unfold renderTicks at h
      rw [loop_render_eq st hl hf] at h
      exact h
    obtain ⟨a, b, c⟩ := ih _ stX hl1 hf1 h2
    exact ⟨a, b, c⟩

theorem ticks_no_marker (cs : Bool) (n : Nat) :
    ∀ (st : State) (serial : List uint8_t),
      (∀ b ∈ serial, b.val < 0x30 ∨ 0x6F < b.val) →
      st.leds.length = NUM_LEDS → st.framebuffer.length = NUM_LEDS →
      ∃ st2 : State, ticks cs n st serial = some (st2, serial.drop n) ∧
        st2.leds = (rawTick st.s_nCabinetLights)^[n] st.leds ∧
        st2.s_nCabinetLights = st.s_nCabinetLights ∧
        st2.framebuffer.length = NUM_LEDS ∧
        (0 < n → st2.framebuffer = st2.leds.map correctPixel) := by
  induction n with
  | zero =>
    intro st serial _ _ hf
    exact ⟨st, rfl, rfl, rfl, hf, fun h => absurd h (Nat.lt_irrefl 0)⟩
  | succ n ih =>
    intro st serial hser hl hf
    have hl1 : (rawTick st.s_nCabinetLights st.leds).length = NUM_LEDS :=
      (length_rawTick _ _).trans hl
    have hf1 : ((rawTick st.s_nCabinetLights st.leds).map correctPixel).length = NUM_LEDS := by
      rw [List.length_map]; exact hl1
    cases serial with
    | nil =>
      obtain ⟨st2, ht, hleds, hm, hfl, hfb⟩ := ih
        { st with
          leds := rawTick st.s_nCabinetLights st.leds,
          framebuffer := (rawTick st.s_nCabinetLights st.leds).map correctPixel } []
        (fun b hb => absurd hb (List.not_mem_nil b)) hl1 hf1
      refine ⟨st2, ?_, ?_, hm, hfl, ?_⟩
      · unfold ticks
        rw [loop_nil_eq cs st hl hf]
        simpa using ht
      · rw [hleds, Function.iterate_succ_apply]
      · intro _
        rcases Nat.eq_zero_or_pos n with h0 | hpos
        · subst h0
          cases ht
          rfl
        · exact hfb hpos
    | cons b rest =>
      have hb : ¬ (0x30 ≤ b.val ∧ b.val ≤ 0x6F) := by
        have := hser b (List.mem_cons_self _ _)
        omega
      obtain ⟨st2, ht, hleds, hm, hfl, hfb⟩ := ih
        { st with
          leds := rawTick st.s_nCabinetLights st.leds,
          framebuffer := (rawTick st.s_nCabinetLights st.leds).map correctPixel } rest
        (fun b hb => hser b (List.mem_cons_of_mem _ hb)) hl1 hf1
      refine ⟨st2, ?_, ?_, hm, hfl, ?_⟩
      · unfold ticks
        rw [loop_not_marker_eq cs st b rest hb hl hf]
        simpa using ht
      · rw [hleds, Function.iterate_succ_apply]
      · intro _
        rcases Nat.eq_zero_or_pos n with h0 | hpos
        · subst h0
          cases ht
          rfl
        · exact hfb hpos

set_option maxRecDepth 4096 in
theorem correctPixel_Black : correctPixel CRGB.Black = CRGB.Black := by decide


theorem loop_assign_congr (m1 m2 : uint8_t) (leds : List CRGB)
    (h : ∀ z ∈ zoneMap, CABINET_LIGHT_ACTIVE m1 z.mask = CABINET_LIGHT_ACTIVE m2 z.mask) :
    loop_assign m1 leds = loop_assign m2 leds := by
  have h0 := h ⟨enumLightMaskMarqueeUpperLeft, 0, 10, CRGB.Yellow⟩ (by simp [zoneMap])
  have h1 := h ⟨enumLightMaskMarqueeLowerLeft, 10, 20, CRGB.Red⟩ (by simp [zoneMap])
  have h2 := h ⟨enumLightMaskBassLeft, 20, 30, ⟨212, 0, 255⟩⟩ (by simp [zoneMap])
  have h3 := h ⟨enumLightMaskBassRight, 30, 40, ⟨212, 0, 255⟩⟩ (by simp [zoneMap])
  have h4 := h ⟨enumLightMaskMarqueeLowerRight, 40, 50, CRGB.Red⟩ (by simp [zoneMap])
  have h5 := h ⟨enumLightMaskMarqueeUpperRight, 50, 60, CRGB.Yellow⟩ (by simp [zoneMap])
  simp only [] at h0 h1 h2 h3 h4 h5
  unfold loop_assign
  rw [h0, h1, h2, h3, h4, h5]

theorem active_of_land_eq (m1 m2 : uint8_t) (h : m1.val &&& 0x3F = m2.val &&& 0x3F) :
    ∀ z ∈ zoneMap, CABINET_LIGHT_ACTIVE m1 z.mask = CABINET_LIGHT_ACTIVE m2 z.mask := by
  intro z hz
  have hmask : (0x3F : Nat) &&& z.mask = z.mask := by
    simp only [zoneMap, List.mem_cons, List.mem_singleton, List.not_mem_nil, or_false] at hz
    rcases hz with rfl | rfl | rfl | rfl | rfl | rfl <;> rfl
  unfold CABINET_LIGHT_ACTIVE
  rw [← hmask, ← Nat.land_assoc, ← Nat.land_assoc, h]


/-! ## Lemmas on the order of the zone writes -/

theorem Zone.disjoint_symm {z1 z2 : Zone} (h : z1.disjoint z2) : z2.disjoint z1 :=
  fun j hj hc => h j hj ⟨hc.2, hc.1⟩

theorem foldl_assignZone_perm (m : uint8_t) (zs : List Zone) (hp : zs.Perm zoneMap)
    (leds : List CRGB) : zs.foldl (assignZone m) leds = zoneMap.foldl (assignZone m) leds := by
  have hpw : zs.Pairwise Zone.disjoint :=
    (hp.pairwise_iff (fun h => Zone.disjoint_symm h)).mpr zoneMap_pairwise_disjoint
  apply List.ext_getElem?
  intro j
  by_cases hj : j < NUM_LEDS
  · obtain ⟨z, hz, hc⟩ := zone_of_pixel j hj
    rw [getElem?_foldl_assignZone m j hj zs leds z hpw (hp.mem_iff.mpr hz) hc,
      getElem?_foldl_assignZone m j hj zoneMap leds z zoneMap_pairwise_disjoint hz hc]
  · have hno : ∀ z ∈ zoneMap, ¬ z.covers j :=
      fun z hz hc => hj (covers_lt_NUM_LEDS z hz j hc)
    rw [getElem?_foldl_assignZone_skip m j zs leds (fun z hz => hno z (hp.mem_iff.mp hz)),
      getElem?_foldl_assignZone_skip m j zoneMap leds hno]


/-! ## Lemmas on the shape of the gamma table -/

theorem gamma8_nearest : ∀ i : uint8_t,
    ((gamma8 i).val = 0 ∨ (2 * (gamma8 i).val - 1) ^ 5 * 255 ^ 9 ≤ 2 ^ 5 * i.val ^ 14) ∧
      2 ^ 5 * i.val ^ 14 < (2 * (gamma8 i).val + 1) ^ 5 * 255 ^ 9 := by
  decide!

theorem gamma8_le_self : ∀ v : uint8_t, gamma8 v ≤ v := by
  decide!

theorem rpow_2_8_fifth (i : Nat) :
    (255 * ((i : ℝ) / 255) ^ (2.8 : ℝ)) ^ 5 = (i : ℝ) ^ 14 / 255 ^ 9 := by
  have hnn : (0 : ℝ) ≤ (i : ℝ) / 255 := by positivity
  have h28 : (2.8 : ℝ) * ((5 : ℕ) : ℝ) = ((14 : ℕ) : ℝ) := by norm_num
  rw [mul_pow, ← Real.rpow_natCast (((i : ℝ) / 255) ^ (2.8 : ℝ)) 5, ← Real.rpow_mul hnn, h28,
    Real.rpow_natCast, div_pow]
  field_simp
  ring

theorem nearest_of_int_bounds (i T : Nat)
    (hlo : T = 0 ∨ (2 * T - 1) ^ 5 * 255 ^ 9 ≤ 2 ^ 5 * i ^ 14)
    (hhi : 2 ^ 5 * i ^ 14 < (2 * T + 1) ^ 5 * 255 ^ 9) :
    (T : ℝ) - 1 / 2 ≤ 255 * ((i : ℝ) / 255) ^ (2.8 : ℝ) ∧
      255 * ((i : ℝ) / 255) ^ (2.8 : ℝ) < (T : ℝ) + 1 / 2 := by
  have hx : (0 : ℝ) ≤ 255 * ((i : ℝ) / 255) ^ (2.8 : ℝ) := by positivity
  have h5 := rpow_2_8_fifth i
  constructor
  · rcases Nat.eq_zero_or_pos T with h0 | hpos
    · subst h0
      have : ((0 : ℕ) : ℝ) - 1 / 2 ≤ 0 := by norm_num
      linarith
    · have hlo2 : (2 * T - 1) ^ 5 * 255 ^ 9 ≤ 2 ^ 5 * i ^ 14 := by
        rcases hlo with h | h
        · omega
        · exact h
      by_contra hcon
      push_neg at hcon
      have hlt : (255 * ((i : ℝ) / 255) ^ (2.8 : ℝ)) ^ 5 < ((T : ℝ) - 1 / 2) ^ 5 :=
        pow_lt_pow_left₀ hcon hx (by norm_num)
      rw [h5] at hlt
      have hcast : ((2 * T - 1 : ℕ) : ℝ) = 2 * (T : ℝ) - 1 := by
        rw [Nat.cast_sub (by omega)]; push_cast; ring
      have hlo3 : ((2 * (T : ℝ) - 1) ^ 5 * 255 ^ 9 : ℝ) ≤ 2 ^ 5 * (i : ℝ) ^ 14 := by
        rw [← hcast]; exact_mod_cast hlo2
      have h255 : (0 : ℝ) < 255 ^ 9 := by positivity
      rw [div_lt_iff₀ h255] at hlt
      have : ((T : ℝ) - 1 / 2) ^ 5 = (2 * (T : ℝ) - 1) ^ 5 / 2 ^ 5 := by
        rw [← div_pow]; congr 1; ring
      rw [this] at hlt
      have h32 : (0 : ℝ) < 2 ^ 5 := by positivity
      have : 2 ^ 5 * (i : ℝ) ^ 14 < (2 * (T : ℝ) - 1) ^ 5 * 255 ^ 9 := by
        have := mul_lt_mul_of_pos_left hlt h32
        calc 2 ^ 5 * (i : ℝ) ^ 14 < 2 ^ 5 * ((2 * (T : ℝ) - 1) ^ 5 / 2 ^ 5 * 255 ^ 9) := this
          _ = (2 * (T : ℝ) - 1) ^ 5 * 255 ^ 9 := by field_simp
      linarith
  · by_contra hcon
    push_neg at hcon
    have hT : (0 : ℝ) ≤ (T : ℝ) + 1 / 2 := by positivity
    have hle := pow_le_pow_left₀ hT hcon 5
    rw [h5] at hle
    have hhi3 : (2 ^ 5 * (i : ℝ) ^ 14 : ℝ) < (2 * (T : ℝ) + 1) ^ 5 * 255 ^ 9 := by
      exact_mod_cast hhi
    have h255 : (0 : ℝ) < 255 ^ 9 := by positivity
    rw [le_div_iff₀ h255] at hle
    have : ((T : ℝ) + 1 / 2) ^ 5 = (2 * (T : ℝ) + 1) ^ 5 / 2 ^ 5 := by
      rw [← div_pow]; congr 1; ring
    rw [this] at hle
    have h32 : (0 : ℝ) < 2 ^ 5 := by positivity
    have : (2 * (T : ℝ) + 1) ^ 5 * 255 ^ 9 ≤ 2 ^ 5 * (i : ℝ) ^ 14 := by
      have := mul_le_mul_of_nonneg_left hle h32.le
      calc (2 * (T : ℝ) + 1) ^ 5 * 255 ^ 9
          = 2 ^ 5 * ((2 * (T : ℝ) + 1) ^ 5 / 2 ^ 5 * 255 ^ 9) := by field_simp
        _ ≤ 2 ^ 5 * (i : ℝ) ^ 14 := this
    linarith

/-! ## Lemmas on a tick with any input -/

theorem loop_served_eq (cs : Bool) (st : State) (serial : List uint8_t)
    (hl : st.leds.length = NUM_LEDS) (hf : st.framebuffer.length = NUM_LEDS)
    (hs : frameServed serial) :
    ∃ (st1 : State) (rest : List uint8_t),
      loop_decode cs st serial = some (st1, rest) ∧
      st1.leds = st.leds ∧ st1.framebuffer = st.framebuffer ∧
      loop cs st serial = some
        ({ st1 with
           leds := rawTick st1.s_nCabinetLights st.leds,
           framebuffer := (rawTick st1.s_nCabinetLights st.leds).map correctPixel },
          rest) := by
  cases serial with
  | nil => exact ⟨st, [], loop_decode_nil cs st, rfl, rfl, loop_nil_eq cs st hl hf⟩
  | cons b rest =>
    by_cases hb : 0x30 ≤ b.val ∧ b.val ≤ 0x6F
    · have hrest : 13 ≤ rest.length := hs hb
      exact ⟨_, _, loop_decode_marker cs st b rest hb hrest, rfl, rfl,
        loop_marker_eq cs st b rest hb hrest hl hf⟩
    · exact ⟨st, rest, loop_decode_not_marker cs st b rest hb, rfl, rfl,
        loop_not_marker_eq cs st b rest hb hl hf⟩

set_option maxRecDepth 4096 in
theorem correctPixel_zone_colours :
    correctPixel CRGB.Yellow = ⟨255, 255, 0⟩ ∧ correctPixel CRGB.Red = ⟨255, 0, 0⟩ ∧
      correctPixel ⟨212, 0, 255⟩ = ⟨152, 0, 255⟩ := by
  decide

theorem getElem?_rawTick_active (m : uint8_t) (leds : List CRGB) (j : Nat)
    (mask lo hi : Nat) (c : CRGB) (hl : leds.length = NUM_LEDS)
    (hz : (⟨mask, lo, hi, c⟩ : Zone) ∈ zoneMap) (hj : lo ≤ j ∧ j < hi)
    (ha : m.val &&& mask ≠ 0) :
    (rawTick m leds)[j]? = some c := by
  have hc : (⟨mask, lo, hi, c⟩ : Zone).covers j := hj
  rw [getElem?_rawTick_of_covers m leds _ j hl hz hc (covers_lt_NUM_LEDS _ hz j hc)]
  exact if_pos ha

/-! ## Lemmas on streams of frames -/

theorem ticks_succ (cs : Bool) (n : Nat) (st : State) (serial : List uint8_t) :
    ticks cs (n + 1) st serial =
      match loop cs st serial with
      | none => none
      | some (st1, serial1) => ticks cs n st1 serial1 := rfl

theorem ticks_add (cs : Bool) (a b : Nat) :
    ∀ (st : State) (serial : List uint8_t),
      ticks cs (a + b) st serial =
        match ticks cs a st serial with
        | none => none
        | some (st1, serial1) => ticks cs b st1 serial1 := by
  induction a with
  | zero => intro st serial; simp [ticks]
  | succ a ih =>
    intro st serial
    rw [Nat.succ_add, ticks_succ, ticks_succ]
    cases hloop : loop cs st serial with
    | none => rfl
    | some r =>
      obtain ⟨st1, serial1⟩ := r
      exact ih st1 serial1

theorem length_streamOfFrames (fs : List Frame) (hwf : ∀ f ∈ fs, f.wellFormed) :
    (streamOfFrames fs).length = 14 * fs.length := by
  induction fs with
  | nil => rfl
  | cons f fs ih =>
    have h13 : f.2.length = 13 := (hwf f (List.mem_cons_self _ _)).2
    simp only [streamOfFrames, List.length_cons, List.length_append, h13,
      ih (fun g hg => hwf g (List.mem_cons_of_mem _ hg))]
    omega

theorem ticks_frames (cs : Bool) (j : Nat) :
    ∀ (fs : List Frame) (st : State) (tail : List uint8_t),
      (∀ f ∈ fs, f.wellFormed) → j ≤ fs.length →
      st.leds.length = NUM_LEDS → st.framebuffer.length = NUM_LEDS →
      ∃ st2 : State,
        ticks cs j st (streamOfFrames fs ++ tail) =
          some (st2, streamOfFrames (fs.drop j) ++ tail) ∧
        st2.leds.length = NUM_LEDS ∧ st2.framebuffer.length = NUM_LEDS ∧
        (0 < j → fs[j - 1]?.map Prod.fst = some st2.s_nCabinetLights) := by
  induction j with
  | zero =>
    intro fs st tail _ _ hl hf
    exact ⟨st, rfl, hl, hf, fun h => absurd h (Nat.lt_irrefl 0)⟩
  | succ j ih =>
    intro fs st tail hwf hj hl hf
    cases fs with
    | nil => simp at hj
    | cons f fs =>
      obtain ⟨hb, h13⟩ := hwf f (List.mem_cons_self _ _)
      have hj2 : j ≤ fs.length := by simpa using hj
      have hloop := loop_marker_eq cs st f.1 (f.2 ++ (streamOfFrames fs ++ tail)) hb
        (by rw [List.length_append]; omega) hl hf
      rw [List.take_left' h13, List.drop_left' h13] at hloop
      have hl1 : (rawTick f.1 st.leds).length = NUM_LEDS := (length_rawTick _ _).trans hl
      obtain ⟨st2, ht, hl2, hf2, hm⟩ := ih fs
        { leds := rawTick f.1 st.leds,
          framebuffer := (rawTick f.1 st.leds).map correctPixel,
          s_pLightData := f.1 :: f.2,
          s_nCabinetLights := f.1 } tail
        (fun g hg => hwf g (List.mem_cons_of_mem _ hg)) hj2 hl1
        (by rw [List.length_map]; exact hl1)
      refine ⟨st2, ?_, hl2, hf2, fun _ => ?_⟩
      · have hstream : streamOfFrames (f :: fs) ++ tail =
            f.1 :: (f.2 ++ (streamOfFrames fs ++ tail)) := by
          simp [streamOfFrames]
        rw [hstream, ticks_succ, hloop]
        simpa using ht
      · rcases Nat.eq_zero_or_pos j with h0 | hpos
        · subst h0
          have hst : st2.s_nCabinetLights = f.1 := by
            have := (Prod.mk.inj (Option.some.inj ht)).1
            rw [← this]
          simp [hst]
        · have := hm hpos
          rw [← this]
          obtain ⟨i, rfl⟩ : ∃ i, j = i + 1 := ⟨j - 1, by omega⟩
          simp

/-! ## Lemmas on the SextetStream byte -/

theorem sextet_byte_facts : ∀ v : Fin 64,
    (0x30 ≤ ((v.val + 0x10) &&& 0x3F) + 0x30 ∧ ((v.val + 0x10) &&& 0x3F) + 0x30 ≤ 0x6F) ∧
    (((v.val + 0x10) &&& 0x3F) + 0x30) &&& 0x3F = v.val ∧
    (toByte (((v.val + 0x10) &&& 0x3F) + 0x30)).val = ((v.val + 0x10) &&& 0x3F) + 0x30 := by
  decide!

theorem land_mask_of_land_0x3F (a v : Nat) (h : a &&& 0x3F = v) (z : Zone) (hz : z ∈ zoneMap) :
    a &&& z.mask = v &&& z.mask := by
  have hmask : (0x3F : Nat) &&& z.mask = z.mask := by
    simp only [zoneMap, List.mem_cons, List.mem_singleton, List.not_mem_nil, or_false] at hz
    rcases hz with rfl | rfl | rfl | rfl | rfl | rfl <;> rfl
  rw [← h, Nat.land_assoc, hmask]

/-! ## Lemmas on the bitmask along the ticks -/

theorem colorCorrectBody_mask (st st2 : State) (nLED : Nat)
    (h : colorCorrectBody st nLED = some st2) :
    st2.s_nCabinetLights = st.s_nCabinetLights := by
  cases hsrc : st.leds[nLED]? with
  | none =>
    unfold colorCorrectBody at h
    rw [hsrc] at h
    cases h
  | some src =>
    rw [colorCorrectBody_eq st nLED src hsrc] at h
    cases h
    rfl

theorem foldlM_colorCorrectBody_mask (is : List Nat) :
    ∀ st st2 : State, is.foldlM colorCorrectBody st = some st2 →
      st2.s_nCabinetLights = st.s_nCabinetLights := by
  induction is with
  | nil =>
    intro st st2 h
    cases h
    rfl
  | cons i is ih =>
    intro st st2 h
    rw [List.foldlM_cons] at h
    cases hb : colorCorrectBody st i with
    | none => rw [hb] at h; cases h
    | some st1 =>
      rw [hb] at h
      exact (ih st1 st2 h).trans (colorCorrectBody_mask st st1 i hb)

theorem loop_render_mask (st st2 : State) (h : loop_render st = some st2) :
    st2.s_nCabinetLights = st.s_nCabinetLights := by
  unfold loop_render colorCorrect at h
  simp only [] at h
  have hm := foldlM_colorCorrectBody_mask (List.range' 0 NUM_LEDS) _ st2 h
  exact hm

theorem loop_decode_cases (cs : Bool) (st st1 : State) (serial r : List uint8_t)
    (h : loop_decode cs st serial = some (st1, r)) :
    (st1 = st ∧ r = serial.drop 1 ∧
        ∀ b ∈ serial.take 1, ¬ (0x30 ≤ b.val ∧ b.val ≤ 0x6F)) ∨
      (0x30 ≤ st1.s_nCabinetLights.val ∧ st1.s_nCabinetLights.val ≤ 0x6F) := by
  cases serial with
  | nil =>
    rw [loop_decode_nil] at h
    cases h
    exact Or.inl ⟨rfl, rfl, fun b hb => absurd hb (List.not_mem_nil b)⟩
  | cons b rest =>
    by_cases hb : 0x30 ≤ b.val ∧ b.val ≤ 0x6F
    · by_cases hrest : 13 ≤ rest.length
      · rw [loop_decode_marker cs st b rest hb hrest] at h
        cases h
        exact Or.inr hb
      · have hc : 0x30 ≤ toChar cs b ∧ toChar cs b ≤ 0x6F := (marker_iff_toChar cs b).mpr hb
        simp only [loop_decode, Serial.available, Serial.read, Serial.readBytes,
          List.length_cons] at h
        rw [if_pos hc, if_neg hrest] at h
        simp at h
    · rw [loop_decode_not_marker cs st b rest hb] at h
      cases h
      refine Or.inl ⟨rfl, rfl, fun a ha => ?_⟩
      have : a = b := by simpa using ha
      rw [this]
      exact hb

theorem loop_cases (cs : Bool) (st st2 : State) (serial r : List uint8_t)
    (h : loop cs st serial = some (st2, r)) :
    (st2.s_nCabinetLights = st.s_nCabinetLights ∧ r = serial.drop 1 ∧
        ∀ b ∈ serial.take 1, ¬ (0x30 ≤ b.val ∧ b.val ≤ 0x6F)) ∨
      (0x30 ≤ st2.s_nCabinetLights.val ∧ st2.s_nCabinetLights.val ≤ 0x6F) := by
  unfold loop at h
  cases hd : loop_decode cs st serial with
  | none => rw [hd] at h; cases h
  | some d =>
    obtain ⟨st1, r1⟩ := d
    rw [hd] at h
    simp only [] at h
    cases hr : loop_render st1 with
    | none => rw [hr] at h; cases h
    | some st3 =>
      rw [hr] at h
      cases h
      have hm := loop_render_mask st1 st2 hr
      rcases loop_decode_cases cs st st1 serial r hd with ⟨h1, h2, h3⟩ | h1
      · exact Or.inl ⟨by rw [hm, h1], h2, h3⟩
      · exact Or.inr (by rw [hm]; exact h1)

theorem ticks_bitmask (cs : Bool) (n : Nat) :
    ∀ (st st2 : State) (serial r : List uint8_t),
      ticks cs n st serial = some (st2, r) →
      ((0x30 ≤ st.s_nCabinetLights.val ∧ st.s_nCabinetLights.val ≤ 0x6F) →
        (0x30 ≤ st2.s_nCabinetLights.val ∧ st2.s_nCabinetLights.val ≤ 0x6F)) ∧
      ((st2.s_nCabinetLights = st.s_nCabinetLights ∧ r = serial.drop n ∧
          ∀ b ∈ serial.take n, ¬ (0x30 ≤ b.val ∧ b.val ≤ 0x6F)) ∨
        (0x30 ≤ st2.s_nCabinetLights.val ∧ st2.s_nCabinetLights.val ≤ 0x6F)) := by
  induction n with
  | zero =>
    intro st st2 serial r h
    cases h
    exact ⟨fun h => h, Or.inl ⟨rfl, rfl, fun b hb => by simp at hb⟩⟩
  | succ n ih =>
    intro st st2 serial r h
    rw [ticks_succ] at h
    cases hloop : loop cs st serial with
    | none => rw [hloop] at h; cases h
    | some d =>
      obtain ⟨st1, s1⟩ := d
      rw [hloop] at h
      simp only [] at h
      obtain ⟨ih1, ih2⟩ := ih st1 st2 s1 r h
      rcases loop_cases cs st st1 serial s1 hloop with ⟨hm, hs1, htake⟩ | hmark
      · refine ⟨fun hst => ih1 (by rw [hm]; exact hst), ?_⟩
        rcases ih2 with ⟨hm2, hr, htake2⟩ | hmark2
        · refine Or.inl ⟨hm2.trans hm, ?_, ?_⟩
          · rw [hr, hs1, List.drop_drop, Nat.add_comm]
          · intro b hb
            cases serial with
            | nil => simp at hb
            | cons a t =>
              rw [List.take_succ_cons, List.mem_cons] at hb
              rcases hb with rfl | hb
              · exact htake b (by simp)
              · exact htake2 b (by rw [hs1]; simpa using hb)
        · exact Or.inr hmark2
      · exact ⟨fun _ => ih1 hmark, Or.inr (ih1 hmark)⟩

/-! ## Lemmas on the submitted frame -/

theorem getElem?_submitted_active (m : uint8_t) (leds : List CRGB) (j : Nat)
    (mask lo hi : Nat) (c : CRGB) (hl : leds.length = NUM_LEDS)
    (hz : (⟨mask, lo, hi, c⟩ : Zone) ∈ zoneMap) (hj : lo ≤ j ∧ j < hi)
    (ha : m.val &&& mask ≠ 0) :
    ((rawTick m leds).map correctPixel)[j]? = some (correctPixel c) := by
  rw [List.getElem?_map, getElem?_rawTick_active m leds j mask lo hi c hl hz hj ha]
  rfl

theorem gamma8_eq_zero_of_eq_zero (v : uint8_t) (h : v = 0) : gamma8 v = 0 := by
  subst h
  decide

set_option maxRecDepth 4096 in
theorem s_gamma8_zone_channels :
    pgm_read_byte s_gamma8 212 = some 152 ∧ pgm_read_byte s_gamma8 255 = some 255 ∧
      pgm_read_byte s_gamma8 0 = some 0 := by
  decide

/-! ## Lemmas on the ticks coming to their end -/

theorem ticks_of_readsServed (cs : Bool) (n : Nat) :
    ∀ (st : State) (serial : List uint8_t),
      st.leds.length = NUM_LEDS → st.framebuffer.length = NUM_LEDS →
      readsServed n serial →
      ∃ (st2 : State) (rest : List uint8_t), ticks cs n st serial = some (st2, rest) := by
  induction n with
  | zero => intro st serial _ _ _; exact ⟨st, serial, rfl⟩
  | succ n ih =>
    intro st serial hl hf hs
    have hl1 : ∀ m : uint8_t, (rawTick m st.leds).length = NUM_LEDS :=
      fun m => (length_rawTick m st.leds).trans hl
    have hf1 : ∀ m : uint8_t, ((rawTick m st.leds).map correctPixel).length = NUM_LEDS :=
      fun m => (List.length_map _ _).trans (hl1 m)
    cases serial with
    | nil =>
      obtain ⟨st2, rest, ht⟩ := ih
        ⟨rawTick st.s_nCabinetLights st.leds,
          (rawTick st.s_nCabinetLights st.leds).map correctPixel,
          st.s_pLightData, st.s_nCabinetLights⟩ []
        (hl1 _) (hf1 _) (by cases n <;> trivial)
      refine ⟨st2, rest, ?_⟩
      rw [ticks_succ, loop_nil_eq cs st hl hf]
      exact ht
    | cons b tl =>
      by_cases hb : 0x30 ≤ b.val ∧ b.val ≤ 0x6F
      · have hs2 : 13 ≤ tl.length ∧ readsServed n (tl.drop 13) := by
          simpa [readsServed, hb] using hs
        obtain ⟨st2, rest, ht⟩ := ih
          ⟨rawTick b st.leds, (rawTick b st.leds).map correctPixel, b :: tl.take 13, b⟩
          (tl.drop 13) (hl1 _) (hf1 _) hs2.2
        refine ⟨st2, rest, ?_⟩
        rw [ticks_succ, loop_marker_eq cs st b tl hb hs2.1 hl hf]
        exact ht
      · have hs2 : readsServed n tl := by
          simpa [readsServed, hb] using hs
        obtain ⟨st2, rest, ht⟩ := ih
          ⟨rawTick st.s_nCabinetLights st.leds,
            (rawTick st.s_nCabinetLights st.leds).map correctPixel,
            st.s_pLightData, st.s_nCabinetLights⟩ tl
          (hl1 _) (hf1 _) hs2
        refine ⟨st2, rest, ?_⟩
        rw [ticks_succ, loop_not_marker_eq cs st b tl hb hl hf]
        exact ht

/-! ## The decoder (C1, C2) -/
/-! ## The decoder (C1, C2) -/

/-- C1 (valid frame). When the first available byte `b` lies in `[0x30, 0x6F]`
and at least 13 more bytes follow, the decoder consumes exactly 14 bytes and
leaves `s_nCabinetLights` equal to `b`, whatever the previous bitmask was; the
same holds of the complete tick `loop`, on either reading of `char`. -/
theorem C1_valid_frame_sets_bitmask (cs : Bool) (st : State) (b : uint8_t)
    (rest : List uint8_t) (hb : 0x30 ≤ b.val ∧ b.val ≤ 0x6F) (hrest : 13 ≤ rest.length) :
    (∃ st1 : State, loop_decode cs st (b :: rest) = some (st1, (b :: rest).drop 14) ∧
        st1.s_nCabinetLights = b ∧ st1.leds = st.leds ∧ st1.framebuffer = st.framebuffer) ∧
    ((b :: rest).drop 14).length + 14 = (b :: rest).length ∧
    (∀ m : uint8_t,
      (loop_decode cs { st with s_nCabinetLights := m } (b :: rest)).map
        (fun r => (r.1.s_nCabinetLights, r.2)) = some (b, (b :: rest).drop 14)) ∧
    (st.leds.length = NUM_LEDS → st.framebuffer.length = NUM_LEDS →
      ∃ st2 : State, loop cs st (b :: rest) = some (st2, (b :: rest).drop 14) ∧
        st2.s_nCabinetLights = b) := by
  refine ⟨⟨_, loop_decode_marker cs st b rest hb hrest, rfl, rfl, rfl⟩, ?_, ?_, ?_⟩
  · simp only [List.drop_succ_cons, List.length_drop, List.length_cons]
    omega
  · intro m
    rw [loop_decode_marker cs _ b rest hb hrest]
    rfl
  · intro hl hf
    exact ⟨_, loop_marker_eq cs st b rest hb hrest hl hf, rfl⟩

/-- Witness of C1: the frame `[0x31, 0 x13]` followed by one more byte, read
in `sampleState` with a signed `char`. -/
theorem C1_valid_frame_sets_bitmask_witness :
    (∃ st1 : State, loop_decode true sampleState (0x31 :: (List.replicate 13 0 ++ [0x55])) =
        some (st1, [0x55]) ∧ st1.s_nCabinetLights = 0x31) ∧
    (∃ st2 : State, loop true sampleState (0x31 :: (List.replicate 13 0 ++ [0x55])) =
        some (st2, [0x55]) ∧ st2.s_nCabinetLights = 0x31) :=
  have h := C1_valid_frame_sets_bitmask true sampleState 0x31 (List.replicate 13 0 ++ [0x55])
    (by decide) (by decide)
  ⟨h.1.imp (fun _ hst => ⟨hst.1, hst.2.1⟩), h.2.2.2 rfl rfl⟩

/-- C2 (no marker). When the first available byte `b` lies outside
`[0x30, 0x6F]` (bytes from 0x80 on included, on either reading of `char`), the
decoder consumes that one byte and leaves the whole state, the bitmask in
particular, as it was; with no byte available it consumes nothing and leaves
the state as it was. The complete tick `loop` consumes the same bytes and
keeps the bitmask. -/
theorem C2_no_marker_keeps_bitmask (cs : Bool) (st : State) (b : uint8_t)
    (rest : List uint8_t) (hb : b.val < 0x30 ∨ 0x6F < b.val) :
    loop_decode cs st (b :: rest) = some (st, rest) ∧
    loop_decode cs st [] = some (st, []) ∧
    (st.leds.length = NUM_LEDS → st.framebuffer.length = NUM_LEDS →
      (∃ st2 : State, loop cs st (b :: rest) = some (st2, rest) ∧
        st2.s_nCabinetLights = st.s_nCabinetLights) ∧
      (∃ st2 : State, loop cs st [] = some (st2, []) ∧
        st2.s_nCabinetLights = st.s_nCabinetLights)) := by
  have hb2 : ¬ (0x30 ≤ b.val ∧ b.val ≤ 0x6F) := by omega
  refine ⟨loop_decode_not_marker cs st b rest hb2, loop_decode_nil cs st, ?_⟩
  intro hl hf
  exact ⟨⟨_, loop_not_marker_eq cs st b rest hb2 hl hf, rfl⟩, ⟨_, loop_nil_eq cs st hl hf, rfl⟩⟩

/-- Witness of C2: the byte 0x80 followed by a marker byte, read with a signed
`char` in `sampleState` after its bitmask was set to 0x31. -/
theorem C2_no_marker_keeps_bitmask_witness :
    loop_decode true { sampleState with s_nCabinetLights := 0x31 } [0x80, 0x31] =
      some ({ sampleState with s_nCabinetLights := 0x31 }, [0x31]) ∧
    (∃ st2 : State, loop true { sampleState with s_nCabinetLights := 0x31 } [0x80, 0x31] =
      some (st2, [0x31]) ∧ st2.s_nCabinetLights = 0x31) :=
  have h := C2_no_marker_keeps_bitmask true { sampleState with s_nCabinetLights := 0x31 }
    0x80 [0x31] (by decide)
  ⟨h.1, (h.2.2 rfl rfl).1⟩


/-! ## The wire format and the zone writes (C3, C4) -/

set_option maxRecDepth 8192 in
/-- C3, as stated, fails: were the zones written after a frame those whose
bit is set in `b - 0x30`, the frame `[0x31, 0 x13]` would leave pixel 20 (left
bass, bit 4) to the fade; the code tests the bits of `b` itself and writes
the bass colour there. -/
theorem C3_counterexample :
    ¬ (∀ (cs : Bool) (st : State) (b : uint8_t) (rest : List uint8_t),
        st.leds.length = NUM_LEDS → st.framebuffer.length = NUM_LEDS →
        0x30 ≤ b.val ∧ b.val ≤ 0x6F → 13 ≤ rest.length →
        ∃ st2 : State, loop cs st (b :: rest) = some (st2, rest.drop 13) ∧
          ∀ z ∈ zoneMap, ∀ j : Nat, z.covers j →
            st2.leds[j]? =
              if (b.val - 0x30) &&& z.mask ≠ 0 then some z.colour
              else st.leds[j]?.map fadePixel) := by
  intro h
  obtain ⟨st2, hloop, hz⟩ :=
    h true sampleState 0x31 (List.replicate 13 0) rfl rfl (by decide) (by decide)
  rw [loop_marker_eq true sampleState 0x31 (List.replicate 13 0) (by decide) (by decide)
    rfl rfl] at hloop
  have hst : st2.leds = rawTick 0x31 sampleState.leds := by
    rw [← (Prod.mk.inj (Option.some.inj hloop)).1]
  have hmem : (⟨enumLightMaskBassLeft, 20, 30, ⟨212, 0, 255⟩⟩ : Zone) ∈ zoneMap := by
    simp [zoneMap]
  have hcov : (⟨enumLightMaskBassLeft, 20, 30, ⟨212, 0, 255⟩⟩ : Zone).covers 20 := by
    decide
  have h20 := hz _ hmem 20 hcov
  rw [hst, getElem?_rawTick_of_covers 0x31 sampleState.leds _ 20 rfl hmem hcov (by decide)]
    at h20
  revert h20
  decide

/-- C3 (amended). After the tick that decodes a 14-byte frame starting with
the marker byte `b`, the zones written by the assign step are exactly those
whose bit is set in `b` itself, that is in `b & 0x3F` (bits 0..5: upper-left
marquee, upper-right marquee, lower-left marquee, lower-right marquee, left
bass, right bass); the pixels of every other zone hold the fade of their
previous value. For byte 0 = 0x31 pixels 0-9 hold the marquee colour and
pixels 20-39 the bass colour; for the frame `[0x39, 0 x13]` pixels 0-9 hold the
marquee colour, 20-39 the bass colour and 40-49 red; all other pixels only
fade. -/
theorem C3_wire_format_bits_of_byte0 (cs : Bool) (st : State) (b : uint8_t)
    (rest : List uint8_t) (hl : st.leds.length = NUM_LEDS)
    (hf : st.framebuffer.length = NUM_LEDS) (hb : 0x30 ≤ b.val ∧ b.val ≤ 0x6F)
    (hrest : 13 ≤ rest.length) :
    ∃ st2 : State, loop cs st (b :: rest) = some (st2, rest.drop 13) ∧
      (∀ z ∈ zoneMap, ∀ j : Nat, z.covers j →
        b.val &&& z.mask = (b.val &&& 0x3F) &&& z.mask ∧
        st2.leds[j]? =
          if b.val &&& z.mask ≠ 0 then some z.colour else st.leds[j]?.map fadePixel) ∧
      (b = 0x31 → ∀ j : Nat, j < NUM_LEDS →
        st2.leds[j]? =
          if j < 10 then some CRGB.Yellow
          else if 20 ≤ j ∧ j < 40 then some ⟨212, 0, 255⟩
          else st.leds[j]?.map fadePixel) ∧
      (b = 0x39 → ∀ j : Nat, j < NUM_LEDS →
        st2.leds[j]? =
          if j < 10 then some CRGB.Yellow
          else if 20 ≤ j ∧ j < 40 then some ⟨212, 0, 255⟩
          else if 40 ≤ j ∧ j < 50 then some CRGB.Red
          else st.leds[j]?.map fadePixel) := by
  have hgen : ∀ (j : Nat), ∀ z ∈ zoneMap, z.covers j →
      (rawTick b st.leds)[j]? =
        if b.val &&& z.mask ≠ 0 then some z.colour else st.leds[j]?.map fadePixel :=
    fun j z hz hc =>
      getElem?_rawTick_of_covers b st.leds z j hl hz hc (covers_lt_NUM_LEDS z hz j hc)
  refine ⟨_, loop_marker_eq cs st b rest hb hrest hl hf, ?_, ?_, ?_⟩
  · intro z hz j hc
    refine ⟨?_, hgen j z hz hc⟩
    rw [Nat.land_assoc]
    congr 1
    simp only [zoneMap, List.mem_cons, List.mem_singleton, List.not_mem_nil, or_false] at hz
    rcases hz with rfl | rfl | rfl | rfl | rfl | rfl <;> rfl
  · intro hb31 j hj
    obtain ⟨r0, r1, r2, r3, r4, r5⟩ := zone_rows b j _ _ (hgen j)
    unfold NUM_LEDS at hj
    subst hb31
    have c : ((0x31 : uint8_t).val &&& 0x01 ≠ 0) ∧ ¬ ((0x31 : uint8_t).val &&& 0x04 ≠ 0) ∧
        ((0x31 : uint8_t).val &&& 0x10 ≠ 0) ∧ ((0x31 : uint8_t).val &&& 0x20 ≠ 0) ∧
        ¬ ((0x31 : uint8_t).val &&& 0x08 ≠ 0) ∧ ¬ ((0x31 : uint8_t).val &&& 0x02 ≠ 0) := by
      decide
    by_cases h1 : j < 10
    · rw [if_pos h1, r0 h1, if_pos c.1]; rfl
    by_cases h2 : j < 20
    · rw [if_neg h1, if_neg (by omega), r1 ⟨by omega, h2⟩, if_neg c.2.1]
    by_cases h3 : j < 30
    · rw [if_neg h1, if_pos (by omega), r2 ⟨by omega, h3⟩, if_pos c.2.2.1]
    by_cases h4 : j < 40
    · rw [if_neg h1, if_pos (by omega), r3 ⟨by omega, h4⟩, if_pos c.2.2.2.1]
    by_cases h5 : j < 50
    · rw [if_neg h1, if_neg (by omega), r4 ⟨by omega, h5⟩, if_neg c.2.2.2.2.1]
    · rw [if_neg h1, if_neg (by omega), r5 ⟨by omega, hj⟩, if_neg c.2.2.2.2.2]
  · intro hb39 j hj
    obtain ⟨r0, r1, r2, r3, r4, r5⟩ := zone_rows b j _ _ (hgen j)
    unfold NUM_LEDS at hj
    subst hb39
    have c : ((0x39 : uint8_t).val &&& 0x01 ≠ 0) ∧ ¬ ((0x39 : uint8_t).val &&& 0x04 ≠ 0) ∧
        ((0x39 : uint8_t).val &&& 0x10 ≠ 0) ∧ ((0x39 : uint8_t).val &&& 0x20 ≠ 0) ∧
        ((0x39 : uint8_t).val &&& 0x08 ≠ 0) ∧ ¬ ((0x39 : uint8_t).val &&& 0x02 ≠ 0) := by
      decide
    by_cases h1 : j < 10
    · rw [if_pos h1, r0 h1, if_pos c.1]; rfl
    by_cases h2 : j < 20
    · rw [if_neg h1, if_neg (by omega), if_neg (by omega), r1 ⟨by omega, h2⟩, if_neg c.2.1]
    by_cases h3 : j < 30
    · rw [if_neg h1, if_pos (by omega), r2 ⟨by omega, h3⟩, if_pos c.2.2.1]
    by_cases h4 : j < 40
    · rw [if_neg h1, if_pos (by omega), r3 ⟨by omega, h4⟩, if_pos c.2.2.2.1]
    by_cases h5 : j < 50
    · rw [if_neg h1, if_neg (by omega), if_pos (by omega), r4 ⟨by omega, h5⟩,
        if_pos c.2.2.2.2.1]
      rfl
    · rw [if_neg h1, if_neg (by omega), if_neg (by omega), r5 ⟨by omega, hj⟩,
        if_neg c.2.2.2.2.2]

set_option maxRecDepth 8192 in
/-- Witness of C3 (amended): the frame `[0x39, 0 x13]` decoded in `sampleState`
with a signed `char`; pixels 0, 20, 30 and 45 are written, pixels 15 and 55
hold the fade of (255, 100, 1). -/
theorem C3_wire_format_bits_of_byte0_witness :
    ∃ st2 : State, loop true sampleState (0x39 :: List.replicate 13 0) = some (st2, []) ∧
      st2.leds[0]? = some ⟨255, 255, 0⟩ ∧ st2.leds[20]? = some ⟨212, 0, 255⟩ ∧
      st2.leds[30]? = some ⟨212, 0, 255⟩ ∧ st2.leds[45]? = some ⟨255, 0, 0⟩ ∧
      st2.leds[15]? = some ⟨225, 88, 0⟩ ∧ st2.leds[55]? = some ⟨225, 88, 0⟩ :=
  (C3_wire_format_bits_of_byte0 true sampleState 0x39 (List.replicate 13 0) rfl rfl
    (by decide) (by decide)).imp
    (fun _ h => ⟨h.1, (h.2.2.2 rfl 0 (by decide)).trans (by decide),
      (h.2.2.2 rfl 20 (by decide)).trans (by decide),
      (h.2.2.2 rfl 30 (by decide)).trans (by decide),
      (h.2.2.2 rfl 45 (by decide)).trans (by decide),
      (h.2.2.2 rfl 15 (by decide)).trans (by decide),
      (h.2.2.2 rfl 55 (by decide)).trans (by decide)⟩)

/-- C4 (assign step). For every bitmask `m` and every raw buffer of 60 pixels,
after the six zone writes each pixel of a zone whose bit is set in `m` holds
the colour of that zone, whatever it held before, and each pixel of a zone
whose bit is clear is unchanged. The table: bit 0x01, pixels 0..9, (255,255,0);
bit 0x04, 10..19, (255,0,0); bit 0x10, 20..29, (212,0,255); bit 0x20, 30..39,
(212,0,255); bit 0x08, 40..49, (255,0,0); bit 0x02, 50..59, (255,255,0). -/
theorem C4_assign_writes_zone_colours (m : uint8_t) (leds : List CRGB)
    (hl : leds.length = NUM_LEDS) (i : Nat) (hi : i < NUM_LEDS) :
    (loop_assign m leds).length = NUM_LEDS ∧
    (i < 10 → (loop_assign m leds)[i]? =
      if m.val &&& 0x01 ≠ 0 then some ⟨255, 255, 0⟩ else leds[i]?) ∧
    (10 ≤ i ∧ i < 20 → (loop_assign m leds)[i]? =
      if m.val &&& 0x04 ≠ 0 then some ⟨255, 0, 0⟩ else leds[i]?) ∧
    (20 ≤ i ∧ i < 30 → (loop_assign m leds)[i]? =
      if m.val &&& 0x10 ≠ 0 then some ⟨212, 0, 255⟩ else leds[i]?) ∧
    (30 ≤ i ∧ i < 40 → (loop_assign m leds)[i]? =
      if m.val &&& 0x20 ≠ 0 then some ⟨212, 0, 255⟩ else leds[i]?) ∧
    (40 ≤ i ∧ i < 50 → (loop_assign m leds)[i]? =
      if m.val &&& 0x08 ≠ 0 then some ⟨255, 0, 0⟩ else leds[i]?) ∧
    (50 ≤ i ∧ i < 60 → (loop_assign m leds)[i]? =
      if m.val &&& 0x02 ≠ 0 then some ⟨255, 255, 0⟩ else leds[i]?) :=
  ⟨(length_loop_assign m leds).trans hl,
    zone_rows m i leds[i]? (loop_assign m leds)[i]?
      (fun z hz hc => getElem?_loop_assign_of_covers m leds z i hl hz hc hi)⟩

set_option maxRecDepth 8192 in
/-- Witness of C4: the bitmask 0x05 on the raw buffer of `sampleState`; pixel
12 (bit 0x04 set) becomes red, pixel 25 (bit 0x10 clear) keeps (255, 100, 1). -/
theorem C4_assign_writes_zone_colours_witness :
    (loop_assign 0x05 sampleState.leds)[12]? = some ⟨255, 0, 0⟩ ∧
    (loop_assign 0x05 sampleState.leds)[25]? = some ⟨255, 100, 1⟩ :=
  ⟨((C4_assign_writes_zone_colours 0x05 sampleState.leds rfl 12 (by decide)).2.2.1
      (by decide)).trans (by decide),
    ((C4_assign_writes_zone_colours 0x05 sampleState.leds rfl 25 (by decide)).2.2.2.1
      (by decide)).trans (by decide)⟩

/-! ## The gamma table and the fade (C5, C6) -/

set_option maxRecDepth 4096 in
/-- C5 (gamma table monotone). The lookup in `s_gamma8` is defined for every
channel value and is non-decreasing: for `a ≤ b` in 0..255 the entry for `a` is
at most the entry for `b`; the entry for 0 is 0 and the entry for 255 is
255. -/
theorem C5_gamma_monotone :
    (∀ a b : uint8_t, a ≤ b →
      ∃ x y : uint8_t, pgm_read_byte s_gamma8 a.val = some x ∧
        pgm_read_byte s_gamma8 b.val = some y ∧ x ≤ y) ∧
    pgm_read_byte s_gamma8 0 = some 0 ∧ pgm_read_byte s_gamma8 255 = some 255 :=
  ⟨fun a b hab => ⟨gamma8 a, gamma8 b, pgm_read_byte_s_gamma8 a, pgm_read_byte_s_gamma8 b,
      gamma8_monotone hab⟩, by decide, by decide⟩

/-- Witness of C5: the entries for 100 and 200. -/
theorem C5_gamma_monotone_witness :
    ∃ x y : uint8_t, pgm_read_byte s_gamma8 (100 : uint8_t).val = some x ∧
      pgm_read_byte s_gamma8 (200 : uint8_t).val = some y ∧ x ≤ y :=
  C5_gamma_monotone.1 100 200 (by decide)

/-- C6 (fade). With `FADE_RATE = 30` the fade takes a channel `v` to
`v * 226 / 256`, which is at most `v`; each tick of the fade acts on every
channel of every pixel in this way; and on a raw buffer of 60 pixels, with no
zone active in the bitmask `m`, after 32 ticks or more every channel of every
pixel is 0 (so the buffer, once all zero, stays so). -/
theorem C6_fade_reaches_zero (m : uint8_t) (leds : List CRGB)
    (hm : m.val &&& 0x3F = 0) (hl : leds.length = NUM_LEDS) :
    (∀ v : uint8_t, (fadeChannel v).val = v.val * 226 / 256 ∧ (fadeChannel v).val ≤ v.val) ∧
    (∀ i : Nat, (fadeToBlackBy leds NUM_LEDS FADE_RATE)[i]? =
      leds[i]?.map (fun p => ⟨fadeChannel p.r, fadeChannel p.g, fadeChannel p.b⟩)) ∧
    (∀ n : Nat, 32 ≤ n →
      (fun l => fadeToBlackBy l NUM_LEDS FADE_RATE)^[n] leds =
        List.replicate NUM_LEDS CRGB.Black) ∧
    (∀ n : Nat, 32 ≤ n → (rawTick m)^[n] leds = List.replicate NUM_LEDS CRGB.Black) := by
  refine ⟨fun v => ⟨fadeChannel_val v, ?_⟩, fun i => ?_, fun n hn => ?_, fun n hn => ?_⟩
  · rw [fadeChannel_val]
    omega
  · rw [fadeToBlackBy_eq_map leds (by omega), List.getElem?_map]
    rfl
  · rw [fadeToBlackBy_iterate n leds (by omega), map_iterate_fadePixel_of_le n hn, hl]
  · rw [rawTick_iterate_of_inactive m hm n leds hl, map_iterate_fadePixel_of_le n hn, hl]

/-- Witness of C6: the raw buffer of `sampleState` with the bitmask 0x40 (no
zone active), after 32 ticks. -/
theorem C6_fade_reaches_zero_witness :
    (rawTick 0x40)^[32] sampleState.leds = List.replicate NUM_LEDS CRGB.Black :=
  (C6_fade_reaches_zero 0x40 sampleState.leds (by decide) rfl).2.2.2 32 (Nat.le_refl 32)

/-! ## The zone table (C7) -/

/-- C7 (zone partition). The six conditional writes of `loop` are the rows of
`zoneMap`; the ranges of two rows with distinct bits have no pixel in common,
a pixel index lies in some range exactly when it is below `NUM_LEDS = 60`, so
every pixel of the strip lies in exactly one zone and no write goes outside
the buffer. -/
theorem C7_zone_partition :
    (∀ (m : uint8_t) (leds : List CRGB),
      loop_assign m leds = zoneMap.foldl (assignZone m) leds) ∧
    zoneMap.map (fun z => (z.mask, z.lo, z.hi)) =
      [(0x01, 0, 10), (0x04, 10, 20), (0x10, 20, 30), (0x20, 30, 40), (0x08, 40, 50),
        (0x02, 50, 60)] ∧
    (∀ z1 ∈ zoneMap, ∀ z2 ∈ zoneMap, z1.mask ≠ z2.mask →
      ∀ j : Nat, ¬ (z1.covers j ∧ z2.covers j)) ∧
    (∀ j : Nat, j < NUM_LEDS ↔ ∃ z ∈ zoneMap, z.covers j) ∧
    (∀ j : Nat, j < NUM_LEDS → ∃! z : Zone, z ∈ zoneMap ∧ z.covers j) := by
  have hdis : ∀ z1 ∈ zoneMap, ∀ z2 ∈ zoneMap, z1.mask ≠ z2.mask →
      ∀ j : Nat, ¬ (z1.covers j ∧ z2.covers j) := by
    intro z1 hz1 z2 hz2 hne j hj
    simp only [zoneMap, List.mem_cons, List.mem_singleton, List.not_mem_nil, or_false]
      at hz1 hz2
    unfold Zone.covers at hj
    rcases hz1 with rfl | rfl | rfl | rfl | rfl | rfl <;>
      rcases hz2 with rfl | rfl | rfl | rfl | rfl | rfl <;>
      first
        | exact hne rfl
        | (simp only [] at hj; omega)
  refine ⟨loop_assign_eq_foldl, rfl, hdis, fun j => ⟨zone_of_pixel j, ?_⟩, fun j hj => ?_⟩
  · rintro ⟨z, hz, hc⟩
    exact covers_lt_NUM_LEDS z hz j hc
  · obtain ⟨z, hz, hc⟩ := zone_of_pixel j hj
    refine ⟨z, ⟨hz, hc⟩, ?_⟩
    rintro y ⟨hy, hcy⟩
    by_contra hne
    have hmask : y.mask ≠ z.mask := by
      intro hm
      apply hne
      simp only [zoneMap, List.mem_cons, List.mem_singleton, List.not_mem_nil, or_false]
        at hy hz
      rcases hy with rfl | rfl | rfl | rfl | rfl | rfl <;>
        rcases hz with rfl | rfl | rfl | rfl | rfl | rfl <;>
        first
          | rfl
          | exact absurd hm (by decide)
    exact hdis y hy z hz hmask j ⟨hcy, hc⟩

/-- Witness of C7: pixel 25 lies in exactly one zone. -/
theorem C7_zone_partition_witness :
    ∃! z : Zone, z ∈ zoneMap ∧ z.covers 25 :=
  C7_zone_partition.2.2.2.2 25 (by decide)

/-! ## Convergence to black and the correct step (C8, C9) -/

/-- C8 (convergence to black). Let the raw buffer be any buffer reached by `k`
render passes with a bitmask `X`; let the bitmask then be one with all six
zones off (`m & 0x3F = 0`, the value 0 in particular) and let no marker byte
arrive. Then after `n` ticks, for every `n` from a bound `N ≤ 32` on, the
frame submitted (the `framebuffer`) is (0,0,0) at all 60 pixels. -/
theorem C8_converges_to_black (cs : Bool) (X m : uint8_t) (st0 stX : State) (k : Nat)
    (serial : List uint8_t)
    (hl0 : st0.leds.length = NUM_LEDS) (hf0 : st0.framebuffer.length = NUM_LEDS)
    (hreach : renderTicks k { st0 with s_nCabinetLights := X } = some stX)
    (hm : m.val &&& 0x3F = 0)
    (hser : ∀ b ∈ serial, b.val < 0x30 ∨ 0x6F < b.val) :
    ∃ N : Nat, N ≤ 32 ∧ ∀ n : Nat, N ≤ n →
      ∃ st2 : State,
        ticks cs n { stX with s_nCabinetLights := m } serial = some (st2, serial.drop n) ∧
        st2.framebuffer = List.replicate NUM_LEDS CRGB.Black ∧
        st2.leds = List.replicate NUM_LEDS CRGB.Black ∧
        st2.s_nCabinetLights = m := by
  obtain ⟨hlX, hfX, _⟩ :=
    renderTicks_lengths k { st0 with s_nCabinetLights := X } stX hl0 hf0 hreach
  refine ⟨32, Nat.le_refl 32, fun n hn => ?_⟩
  obtain ⟨st2, ht, hleds, hmask, _, hfb⟩ :=
    ticks_no_marker cs n { stX with s_nCabinetLights := m } serial hser hlX hfX
  have hblack : st2.leds = List.replicate NUM_LEDS CRGB.Black := by
    rw [hleds]
    show (rawTick m)^[n] stX.leds = _
    rw [rawTick_iterate_of_inactive m hm n stX.leds hlX, map_iterate_fadePixel_of_le n hn, hlX]
  refine ⟨st2, ht, ?_, hblack, hmask⟩
  rw [hfb (by omega), hblack, List.map_replicate, correctPixel_Black]

set_option maxRecDepth 8192 in
/-- Witness of C8: from `sampleState`, one render pass with all zones on
(bitmask 0x3F) gives `sampleLitState`; the bitmask is then 0 and two bytes
outside the marker range arrive. -/
theorem C8_converges_to_black_witness :
    ∃ N : Nat, N ≤ 32 ∧ ∀ n : Nat, N ≤ n →
      ∃ st2 : State,
        ticks true n { sampleLitState with s_nCabinetLights := 0 } [0x00, 0x80] =
          some (st2, List.drop n [0x00, 0x80]) ∧
        st2.framebuffer = List.replicate NUM_LEDS CRGB.Black ∧
        st2.leds = List.replicate NUM_LEDS CRGB.Black ∧
        st2.s_nCabinetLights = 0 :=
  C8_converges_to_black true 0x3F 0 sampleState sampleLitState 1 [0x00, 0x80] rfl rfl
    rfl (by decide) (by decide)

/-- C9 (correct step). On buffers of 60 pixels `colorCorrect` returns: every
index it looks up is a channel value below 256 and `s_gamma8` has 256 entries.
Afterwards each pixel `i` of `framebuffer` holds the three table entries for
the channels of `leds[i]` (in `loop`, the raw buffer after the zone writes),
the result does not depend on the previous `framebuffer`, and `leds` and the
bitmask are unchanged. -/
theorem C9_colorCorrect_total (st : State) (hl : st.leds.length = NUM_LEDS)
    (hf : st.framebuffer.length = NUM_LEDS) :
    s_gamma8.length = 256 ∧
    (∀ v : uint8_t, ∃ x : uint8_t, pgm_read_byte s_gamma8 v.val = some x) ∧
    (∃ st2 : State, colorCorrect st = some st2 ∧
      st2.leds = st.leds ∧ st2.s_nCabinetLights = st.s_nCabinetLights ∧
      st2.framebuffer.length = NUM_LEDS ∧
      (∀ i : Nat, i < NUM_LEDS →
        ∃ (src : CRGB) (r g b : uint8_t), st.leds[i]? = some src ∧
          pgm_read_byte s_gamma8 src.r.val = some r ∧
          pgm_read_byte s_gamma8 src.g.val = some g ∧
          pgm_read_byte s_gamma8 src.b.val = some b ∧
          st2.framebuffer[i]? = some ⟨r, g, b⟩) ∧
      (∀ fb : List CRGB, fb.length = NUM_LEDS →
        (colorCorrect { st with framebuffer := fb }).map (fun s => s.framebuffer) =
          some st2.framebuffer)) ∧
    loop_render st = colorCorrect
      { st with
        leds := loop_assign st.s_nCabinetLights (fadeToBlackBy st.leds NUM_LEDS FADE_RATE) } := by
  refine ⟨s_gamma8_length, fun v => ⟨gamma8 v, pgm_read_byte_s_gamma8 v⟩,
    ⟨_, colorCorrect_eq st hl hf, rfl, rfl, ?_, ?_, ?_⟩, ?_⟩
  · simp only [List.length_map]
    exact hl
  · intro i hi
    have hget : st.leds[i]? = some st.leds[i] := List.getElem?_eq_getElem (by omega)
    refine ⟨st.leds[i], gamma8 st.leds[i].r, gamma8 st.leds[i].g, gamma8 st.leds[i].b, hget,
      pgm_read_byte_s_gamma8 _, pgm_read_byte_s_gamma8 _, pgm_read_byte_s_gamma8 _, ?_⟩
    simp only [List.getElem?_map, hget, Option.map_some']
    rfl
  · intro fb hfb
    rw [colorCorrect_eq { st with framebuffer := fb } hl hfb]
    rfl
  · simp only [loop_render]

set_option maxRecDepth 8192 in
/-- Witness of C9: `colorCorrect` on `sampleLitState` with its `framebuffer`
replaced by 60 arbitrary pixels gives back the `framebuffer` of
`sampleLitState`, pixel 25 being (152, 0, 255). -/
theorem C9_colorCorrect_total_witness :
    ∃ st2 : State, colorCorrect sampleLitState = some st2 ∧
      st2.framebuffer[25]? = some ⟨152, 0, 255⟩ ∧
      (colorCorrect { sampleLitState with framebuffer := List.replicate 60 ⟨7, 7, 7⟩ }).map
        (fun s => s.framebuffer) = some st2.framebuffer :=
  (C9_colorCorrect_total sampleLitState rfl rfl).2.2.1.imp
    (fun _ h =>
      ⟨h.1,
        (h.2.2.2.2.1 25 (by decide)).elim (fun _ hs => hs.elim (fun _ hr => hr.elim
          (fun _ hg => hg.elim (fun _ hb => by
            obtain ⟨h1, h2, h3, h4, h5⟩ := hb
            cases h1
            rw [h5]
            revert h2 h3 h4
            simp only [pgm_read_byte]
            intro h2 h3 h4
            cases h2
            cases h3
            cases h4
            rfl)))),
        h.2.2.2.2.2 _ rfl⟩)

/-! ## Unused bits (C10) -/

/-- C10 (unused bits). The zone writes with the bitmask `m` give the same
buffer as the zone writes with `m & 0x3F`; flipping bit 6 or bit 7 of `m`
changes nothing: these bits neither cause nor suppress a write. -/
theorem C10_unused_bits_ignored (m : uint8_t) (leds : List CRGB) :
    loop_assign m leds = loop_assign (m &&& 0x3F) leds ∧
    loop_assign (m ^^^ 0x40) leds = loop_assign m leds ∧
    loop_assign (m ^^^ 0x80) leds = loop_assign m leds := by
  have hx : ∀ m : uint8_t, (m ^^^ 0x40).val &&& 0x3F = m.val &&& 0x3F ∧
      (m ^^^ 0x80).val &&& 0x3F = m.val &&& 0x3F ∧
      (m &&& 0x3F).val &&& 0x3F = m.val &&& 0x3F := by
    decide!
  exact ⟨(loop_assign_congr _ _ leds (active_of_land_eq _ _ (hx m).2.2)).symm,
    loop_assign_congr _ _ leds (active_of_land_eq _ _ (hx m).1),
    loop_assign_congr _ _ leds (active_of_land_eq _ _ (hx m).2.1)⟩

/-! ## The order of the zone writes (C11) -/

/-- C11 (order of the zone writes). For every bitmask and every raw buffer,
the six conditional zone writes performed in any order (any permutation `zs`
of the rows of `zoneMap`, which lists them in the order of the source: upper
left marquee, lower left marquee, left bass, right bass, lower right marquee,
upper right marquee) give the buffer that `loop` gives. -/
theorem C11_zone_write_order_immaterial (m : uint8_t) (leds : List CRGB) (zs : List Zone)
    (hp : zs.Perm zoneMap) :
    zs.foldl (assignZone m) leds = loop_assign m leds ∧
    zoneMap.map (fun z => z.mask) =
      [enumLightMaskMarqueeUpperLeft, enumLightMaskMarqueeLowerLeft, enumLightMaskBassLeft,
        enumLightMaskBassRight, enumLightMaskMarqueeLowerRight,
        enumLightMaskMarqueeUpperRight] := by
  refine ⟨?_, rfl⟩
  rw [loop_assign_eq_foldl]
  exact foldl_assignZone_perm m zs hp leds

/-- Witness of C11: the six writes in the reverse of the order of the source,
with the bitmask 0x3F on the raw buffer of `sampleState`. -/
theorem C11_zone_write_order_immaterial_witness :
    zoneMap.reverse.foldl (assignZone 0x3F) sampleState.leds =
      loop_assign 0x3F sampleState.leds :=
  (C11_zone_write_order_immaterial 0x3F sampleState.leds zoneMap.reverse
    (List.reverse_perm zoneMap)).1

/-! ## The gamma table and the power law (C12) -/

/-- C12 (gamma 2.8). For every `i` in 0..255 the entry `T` of `s_gamma8` for
`i` is the nearest integer to `255 * (i / 255) ^ 2.8`: in exact arithmetic
`(2T - 1)^5 * 255^9 ≤ 2^5 * i^14 < (2T + 1)^5 * 255^9` (the left inequality
being dropped when `T = 0`), that is `T - 1/2 ≤ 255 * (i / 255) ^ 2.8 < T + 1/2`
over the reals. -/
theorem C12_gamma_nearest_to_power_law (i : uint8_t) :
    ∃ T : uint8_t, pgm_read_byte s_gamma8 i.val = some T ∧
      (T.val = 0 ∨ (2 * T.val - 1) ^ 5 * 255 ^ 9 ≤ 2 ^ 5 * i.val ^ 14) ∧
      2 ^ 5 * i.val ^ 14 < (2 * T.val + 1) ^ 5 * 255 ^ 9 ∧
      (T.val : ℝ) - 1 / 2 ≤ 255 * ((i.val : ℝ) / 255) ^ (2.8 : ℝ) ∧
      255 * ((i.val : ℝ) / 255) ^ (2.8 : ℝ) < (T.val : ℝ) + 1 / 2 :=
  ⟨gamma8 i, pgm_read_byte_s_gamma8 i, (gamma8_nearest i).1, (gamma8_nearest i).2,
    nearest_of_int_bounds i.val (gamma8 i).val (gamma8_nearest i).1 (gamma8_nearest i).2⟩

/-! ## The payload and the composition of a tick (C13, C14) -/

/-- C13 (payload not interpreted). For a marker byte `b` and two payloads `p`
and `q` of 13 bytes each (whatever bytes they hold), one tick from the same
state on `b` followed by `p` and on `b` followed by `q` consumes 14 bytes in
both cases and gives the same bitmask, the same raw buffer and the same
`framebuffer`; the two outcomes differ in the receive buffer alone. -/
theorem C13_payload_not_interpreted (cs : Bool) (st : State) (b : uint8_t)
    (p q t1 t2 : List uint8_t)
    (hl : st.leds.length = NUM_LEDS) (hf : st.framebuffer.length = NUM_LEDS)
    (hb : 0x30 ≤ b.val ∧ b.val ≤ 0x6F) (hp : p.length = 13) (hq : q.length = 13) :
    ∃ s1 s2 : State,
      loop cs st (b :: (p ++ t1)) = some (s1, t1) ∧
      loop cs st (b :: (q ++ t2)) = some (s2, t2) ∧
      (b :: (p ++ t1)).length = t1.length + 14 ∧
      (b :: (q ++ t2)).length = t2.length + 14 ∧
      s1.s_nCabinetLights = s2.s_nCabinetLights ∧
      s1.leds = s2.leds ∧ s1.framebuffer = s2.framebuffer ∧
      s1.s_pLightData = b :: p ∧ s2.s_pLightData = b :: q := by
  have h1 := loop_marker_eq cs st b (p ++ t1) hb (by rw [List.length_append]; omega) hl hf
  have h2 := loop_marker_eq cs st b (q ++ t2) hb (by rw [List.length_append]; omega) hl hf
  rw [List.take_left' hp, List.drop_left' hp] at h1
  rw [List.take_left' hq, List.drop_left' hq] at h2
  refine ⟨_, _, h1, h2, ?_, ?_, rfl, rfl, rfl, rfl, rfl⟩
  · simp only [List.length_cons, List.length_append, hp]; omega
  · simp only [List.length_cons, List.length_append, hq]; omega

set_option maxRecDepth 8192 in
/-- Witness of C13: the marker 0x31 followed by thirteen bytes 0x00 and by
thirteen bytes 0x35, read in `sampleState`. -/
theorem C13_payload_not_interpreted_witness :
    ∃ s1 s2 : State,
      loop true sampleState (0x31 :: (List.replicate 13 0x00 ++ [])) = some (s1, []) ∧
      loop true sampleState (0x31 :: (List.replicate 13 0x35 ++ [0x40])) = some (s2, [0x40]) ∧
      s1.s_nCabinetLights = s2.s_nCabinetLights ∧
      s1.leds = s2.leds ∧ s1.framebuffer = s2.framebuffer :=
  (C13_payload_not_interpreted true sampleState 0x31 (List.replicate 13 0x00)
    (List.replicate 13 0x35) [] [0x40] rfl rfl (by decide) rfl rfl).imp
    (fun _ h => h.imp (fun _ h2 => ⟨h2.1, h2.2.1, h2.2.2.2.2.1, h2.2.2.2.2.2.1,
      h2.2.2.2.2.2.2.1⟩))

/-- C14 (decode, then fade, then assign). For every state with buffers of 60
pixels and every input on which the tick comes to its end, after one tick each
pixel of a zone whose bit is set in the bitmask left by the decoder of this
tick holds the colour of the zone, and each pixel of any other zone holds the
fade of its previous raw value, channel by channel. -/
theorem C14_tick_decode_fade_assign (cs : Bool) (st : State) (serial : List uint8_t)
    (hl : st.leds.length = NUM_LEDS) (hf : st.framebuffer.length = NUM_LEDS)
    (hs : frameServed serial) :
    ∃ (st1 st2 : State) (rest : List uint8_t),
      loop_decode cs st serial = some (st1, rest) ∧
      loop cs st serial = some (st2, rest) ∧
      st2.s_nCabinetLights = st1.s_nCabinetLights ∧
      ∀ z ∈ zoneMap, ∀ j : Nat, z.covers j →
        (fadeToBlackBy st.leds NUM_LEDS FADE_RATE)[j]? =
          st.leds[j]?.map
            (fun p => ⟨fadeChannel p.r, fadeChannel p.g, fadeChannel p.b⟩) ∧
        st2.leds[j]? =
          if st1.s_nCabinetLights.val &&& z.mask ≠ 0 then some z.colour
          else (fadeToBlackBy st.leds NUM_LEDS FADE_RATE)[j]? := by
  obtain ⟨st1, rest, hd, _, _, hloop⟩ := loop_served_eq cs st serial hl hf hs
  refine ⟨st1, _, rest, hd, hloop, rfl, ?_⟩
  intro z hz j hc
  have hfade : (fadeToBlackBy st.leds NUM_LEDS FADE_RATE)[j]? = st.leds[j]?.map fadePixel := by
    rw [fadeToBlackBy_eq_map st.leds (by omega), List.getElem?_map]
  refine ⟨hfade, ?_⟩
  rw [hfade]
  exact getElem?_rawTick_of_covers st1.s_nCabinetLights st.leds z j hl hz hc
    (covers_lt_NUM_LEDS z hz j hc)

set_option maxRecDepth 8192 in
/-- Witness of C14: the frame `[0x41, 0 x13]` read in `sampleState`: the decoder
leaves the bitmask 0x41, pixel 5 (upper left marquee, bit 0 set) holds yellow
and pixel 25 (left bass, bit 4 clear) holds the fade of (255, 100, 1). -/
theorem C14_tick_decode_fade_assign_witness :
    ∃ (st1 st2 : State) (rest : List uint8_t),
      loop_decode true sampleState (0x41 :: List.replicate 13 0) = some (st1, rest) ∧
      loop true sampleState (0x41 :: List.replicate 13 0) = some (st2, rest) ∧
      st1.s_nCabinetLights = 0x41 ∧
      st2.leds[5]? = some ⟨255, 255, 0⟩ ∧ st2.leds[25]? = some ⟨225, 88, 0⟩ := by
  obtain ⟨st1, st2, rest, hd, hloop, _, hz⟩ :=
    C14_tick_decode_fade_assign true sampleState (0x41 :: List.replicate 13 0) rfl rfl
      (by decide)
  have hst1 : st1.s_nCabinetLights = 0x41 := by
    rw [loop_decode_marker true sampleState 0x41 (List.replicate 13 0) (by decide)
      (by decide)] at hd
    rw [← (Prod.mk.inj (Option.some.inj hd)).1]
  refine ⟨st1, st2, rest, hd, hloop, hst1, ?_, ?_⟩
  · have h := (hz ⟨enumLightMaskMarqueeUpperLeft, 0, 10, CRGB.Yellow⟩ (by simp [zoneMap]) 5
      (by decide)).2
    rw [hst1] at h
    exact h.trans (by decide)
  · have h := hz ⟨enumLightMaskBassLeft, 20, 30, ⟨212, 0, 255⟩⟩ (by simp [zoneMap]) 25
      (by decide)
    rw [hst1, h.1] at h
    exact h.2.trans (by decide)

/-! ## Streams of frames (C15, C16) -/

/-- C15 (one frame per tick, in arrival order). Let the port hold `k`
well-formed frames of 14 bytes, one behind the other, and nothing else. After
`j` ticks, `0 < j ≤ k`, exactly `14 * j` bytes are consumed (the frames from
the `j`-th on are left) and the bitmask is byte 0 of the `j`-th frame; after
`k` ticks or more the port is empty and the bitmask is byte 0 of the last
frame. -/
theorem C15_frames_in_arrival_order (cs : Bool) (st : State) (fs : List Frame)
    (hl : st.leds.length = NUM_LEDS) (hf : st.framebuffer.length = NUM_LEDS)
    (hwf : ∀ f ∈ fs, f.wellFormed) :
    (∀ j : Nat, 0 < j → j ≤ fs.length →
      ∃ st2 : State,
        ticks cs j st (streamOfFrames fs) = some (st2, streamOfFrames (fs.drop j)) ∧
        (streamOfFrames fs).length = (streamOfFrames (fs.drop j)).length + 14 * j ∧
        fs[j - 1]?.map Prod.fst = some st2.s_nCabinetLights) ∧
    (∀ n : Nat, 0 < fs.length → fs.length ≤ n →
      ∃ st2 : State,
        ticks cs n st (streamOfFrames fs) = some (st2, []) ∧
        fs[fs.length - 1]?.map Prod.fst = some st2.s_nCabinetLights) := by
  constructor
  · intro j hj hjk
    obtain ⟨st2, ht, _, _, hm⟩ := ticks_frames cs j fs st [] hwf hjk hl hf
    rw [List.append_nil, List.append_nil] at ht
    refine ⟨st2, ht, ?_, hm hj⟩
    rw [length_streamOfFrames fs hwf,
      length_streamOfFrames (fs.drop j) (fun f hf2 => hwf f (List.mem_of_mem_drop hf2)),
      List.length_drop]
    omega
  · intro n hk hn
    obtain ⟨r, rfl⟩ : ∃ r, n = fs.length + r := ⟨n - fs.length, by omega⟩
    obtain ⟨st2, ht, hl2, hf2, hm⟩ :=
      ticks_frames cs fs.length fs st [] hwf (Nat.le_refl _) hl hf
    rw [List.append_nil, List.append_nil, List.drop_length] at ht
    obtain ⟨st3, ht3, _, hm3, _, _⟩ :=
      ticks_no_marker cs r st2 [] (fun b hb => absurd hb (List.not_mem_nil b)) hl2 hf2
    refine ⟨st3, ?_, ?_⟩
    · rw [ticks_add, ht]
      simpa using ht3
    · rw [hm3]
      exact hm hk

set_option maxRecDepth 8192 in
/-- Witness of C15: the frames `[0x31, 0 x13]` and `[0x42, 0x35 x13]` read from
`powerOnState`; after one tick the bitmask is 0x31, after two and after five
ticks it is 0x42 and the port is empty. -/
theorem C15_frames_in_arrival_order_witness :
    (∃ st2 : State,
      ticks true 1 powerOnState
          (streamOfFrames [(0x31, List.replicate 13 0), (0x42, List.replicate 13 0x35)]) =
        some (st2, streamOfFrames [(0x42, List.replicate 13 0x35)]) ∧
      st2.s_nCabinetLights = 0x31) ∧
    (∃ st2 : State,
      ticks true 5 powerOnState
          (streamOfFrames [(0x31, List.replicate 13 0), (0x42, List.replicate 13 0x35)]) =
        some (st2, []) ∧
      st2.s_nCabinetLights = 0x42) :=
  have h := C15_frames_in_arrival_order true powerOnState
    [(0x31, List.replicate 13 0), (0x42, List.replicate 13 0x35)] rfl rfl (by decide)
  ⟨(h.1 1 (by decide) (by decide)).imp
      (fun _ h1 => ⟨h1.1, (Option.some.inj h1.2.2).symm⟩),
    (h.2 5 (by decide) (by decide)).imp
      (fun _ h1 => ⟨h1.1, (Option.some.inj h1.2).symm⟩)⟩

/-- C16 (loss of synchronisation is not detected). Let `b1 :: p1` and
`b2 :: c :: p2` be two well-formed frames, the byte 1 of the second, `c`, lying
in `[0x30, 0x6F]`; let one payload byte of the first be dropped and one more
byte `x` follow the second. The first tick takes `b2` as the 13th payload
byte of the first frame; the second tick takes `c` as a marker and the rest of
the second frame with `x` as its payload. Both ticks come to their end, and
after them the bitmask is `c`. -/
theorem C16_lost_sync_not_detected (cs : Bool) (st : State) (b1 b2 c x : uint8_t)
    (p1 p2 : List uint8_t) (i : Nat)
    (hl : st.leds.length = NUM_LEDS) (hf : st.framebuffer.length = NUM_LEDS)
    (hb1 : 0x30 ≤ b1.val ∧ b1.val ≤ 0x6F) (hp1 : p1.length = 13) (hi : i < 13)
    (_hb2 : 0x30 ≤ b2.val ∧ b2.val ≤ 0x6F) (hc : 0x30 ≤ c.val ∧ c.val ≤ 0x6F)
    (hp2 : (c :: p2).length = 13) :
    ∃ st1 st2 : State,
      loop cs st (b1 :: (p1.eraseIdx i ++ (b2 :: c :: p2) ++ [x])) =
        some (st1, c :: (p2 ++ [x])) ∧
      st1.s_pLightData = b1 :: (p1.eraseIdx i ++ [b2]) ∧
      st1.s_nCabinetLights = b1 ∧
      loop cs st1 (c :: (p2 ++ [x])) = some (st2, []) ∧
      st2.s_pLightData = c :: (p2 ++ [x]) ∧
      st2.s_nCabinetLights = c ∧
      ticks cs 2 st (b1 :: (p1.eraseIdx i ++ (b2 :: c :: p2) ++ [x])) = some (st2, []) := by
  have hp2len : p2.length = 12 := by simpa using hp2
  have hp1e : (p1.eraseIdx i ++ [b2]).length = 13 := by
    rw [List.length_append, List.length_eraseIdx, if_pos (by omega)]
    simp only [List.length_singleton]
    omega
  have hstream : p1.eraseIdx i ++ (b2 :: c :: p2) ++ [x] =
      (p1.eraseIdx i ++ [b2]) ++ (c :: (p2 ++ [x])) := by
    simp
  have h1 := loop_marker_eq cs st b1 ((p1.eraseIdx i ++ [b2]) ++ (c :: (p2 ++ [x]))) hb1
    (by rw [List.length_append]; omega) hl hf
  rw [List.take_left' hp1e, List.drop_left' hp1e] at h1
  have hl1 : (rawTick b1 st.leds).length = NUM_LEDS := (length_rawTick _ _).trans hl
  have hp2x : (p2 ++ [x]).length = 13 := by
    rw [List.length_append, hp2len]; rfl
  have h2 := loop_marker_eq cs
    { leds := rawTick b1 st.leds,
      framebuffer := (rawTick b1 st.leds).map correctPixel,
      s_pLightData := b1 :: (p1.eraseIdx i ++ [b2]),
      s_nCabinetLights := b1 } c ((p2 ++ [x]) ++ []) hc
    (by rw [List.append_nil, hp2x]) hl1 (by rw [List.length_map]; exact hl1)
  rw [List.take_left' hp2x, List.drop_left' hp2x, List.append_nil] at h2
  rw [hstream]
  refine ⟨_, _, h1, rfl, rfl, h2, rfl, rfl, ?_⟩
  rw [ticks_succ, h1]
  simp only []
  rw [ticks_succ, h2]
  rfl

set_option maxRecDepth 8192 in
/-- Witness of C16: the frames `[0x31, 0 x13]` and `[0x41, 0x32, 0 x12]`, the
byte of index 4 of the first payload dropped, the byte 0x00 behind the second
frame, read from `powerOnState`: after two ticks the bitmask is 0x32. -/
theorem C16_lost_sync_not_detected_witness :
    ∃ st1 st2 : State,
      loop true powerOnState
          (0x31 :: ((List.replicate 13 0).eraseIdx 4 ++ (0x41 :: 0x32 :: List.replicate 12 0) ++
            [0x00])) =
        some (st1, 0x32 :: (List.replicate 12 0 ++ [0x00])) ∧
      st1.s_nCabinetLights = 0x31 ∧
      ticks true 2 powerOnState
          (0x31 :: ((List.replicate 13 0).eraseIdx 4 ++ (0x41 :: 0x32 :: List.replicate 12 0) ++
            [0x00])) =
        some (st2, []) ∧
      st2.s_nCabinetLights = 0x32 :=
  (C16_lost_sync_not_detected true powerOnState 0x31 0x41 0x32 0x00 (List.replicate 13 0)
    (List.replicate 12 0) 4 rfl rfl (by decide) rfl (by decide) (by decide) (by decide)
    rfl).imp
    (fun _ h => h.imp (fun _ h2 => ⟨h2.1, h2.2.2.1, h2.2.2.2.2.2.2, h2.2.2.2.2.2.1⟩))

/-! ## The SextetStream encoding and the reachable bitmasks (C17, C18) -/

/-- C17 (round trip with the SextetStream encoding). For every light value `v`
in 0..63 the encoded byte `e = ((v + 0x10) & 0x3F) + 0x30` lies in
`[0x30, 0x6F]` and `e & 0x3F = v`; after the tick that decodes a frame starting
with `e` the bitmask is `e` and the zones written are exactly those whose bit
is set in `v`. All zones off (`v = 0`) is the byte 0x40, under which no zone is
active; the byte 0x30 activates both bass zones and no marquee zone. -/
theorem C17_sextet_round_trip (cs : Bool) (st : State) (v : Nat) (rest : List uint8_t)
    (hv : v < 64) (hl : st.leds.length = NUM_LEDS) (hf : st.framebuffer.length = NUM_LEDS)
    (hrest : 13 ≤ rest.length) :
    (0x30 ≤ ((v + 0x10) &&& 0x3F) + 0x30 ∧ ((v + 0x10) &&& 0x3F) + 0x30 ≤ 0x6F) ∧
    (((v + 0x10) &&& 0x3F) + 0x30) &&& 0x3F = v ∧
    (∃ st2 : State,
      loop cs st (toByte (((v + 0x10) &&& 0x3F) + 0x30) :: rest) = some (st2, rest.drop 13) ∧
      st2.s_nCabinetLights.val = ((v + 0x10) &&& 0x3F) + 0x30 ∧
      ∀ z ∈ zoneMap, ∀ j : Nat, z.covers j →
        (CABINET_LIGHT_ACTIVE st2.s_nCabinetLights z.mask = true ↔ v &&& z.mask ≠ 0) ∧
        st2.leds[j]? =
          if v &&& z.mask ≠ 0 then some z.colour else st.leds[j]?.map fadePixel) ∧
    (toByte (((0 + 0x10) &&& 0x3F) + 0x30) = 0x40 ∧
      ∀ z ∈ zoneMap, CABINET_LIGHT_ACTIVE 0x40 z.mask = false) ∧
    (toByte (((0x30 + 0x10) &&& 0x3F) + 0x30) = 0x30 ∧
      ∀ z ∈ zoneMap, (CABINET_LIGHT_ACTIVE 0x30 z.mask = true ↔
        (z.mask = enumLightMaskBassLeft ∨ z.mask = enumLightMaskBassRight))) := by
  obtain ⟨hrange, hland, hval⟩ := sextet_byte_facts ⟨v, hv⟩
  simp only [] at hrange hland hval
  have hb : 0x30 ≤ (toByte (((v + 0x10) &&& 0x3F) + 0x30)).val ∧
      (toByte (((v + 0x10) &&& 0x3F) + 0x30)).val ≤ 0x6F := by
    rw [hval]; exact hrange
  refine ⟨hrange, hland, ⟨_, loop_marker_eq cs st _ rest hb hrest hl hf, hval, ?_⟩,
    ⟨by decide, by decide⟩, ⟨by decide, by decide⟩⟩
  intro z hz j hc
  have hbits : (toByte (((v + 0x10) &&& 0x3F) + 0x30)).val &&& z.mask = v &&& z.mask := by
    rw [hval]
    exact land_mask_of_land_0x3F _ v hland z hz
  refine ⟨?_, ?_⟩
  · rw [active_iff, hbits]
  · rw [← hbits]
    exact getElem?_rawTick_of_covers _ st.leds z j hl hz hc (covers_lt_NUM_LEDS z hz j hc)

set_option maxRecDepth 8192 in
/-- Witness of C17: the light value 0x05 (upper left and lower left marquee)
is sent as the byte 0x45; the frame starting with it, read in `sampleState`,
leaves pixel 12 (lower left marquee) red and pixel 25 (left bass) to the
fade. -/
theorem C17_sextet_round_trip_witness :
    ∃ st2 : State,
      loop true sampleState (toByte (((0x05 + 0x10) &&& 0x3F) + 0x30) :: List.replicate 13 0) =
        some (st2, []) ∧
      st2.s_nCabinetLights.val = 0x45 ∧
      st2.leds[12]? = some ⟨255, 0, 0⟩ ∧ st2.leds[25]? = some ⟨225, 88, 0⟩ :=
  (C17_sextet_round_trip true sampleState 0x05 (List.replicate 13 0) (by decide) rfl rfl
    (by decide)).2.2.1.imp
    (fun _ h => ⟨h.1, h.2.1,
      ((h.2.2 ⟨enumLightMaskMarqueeLowerLeft, 10, 20, CRGB.Red⟩ (by simp [zoneMap]) 12
        (by decide)).2).trans (by decide),
      ((h.2.2 ⟨enumLightMaskBassLeft, 20, 30, ⟨212, 0, 255⟩⟩ (by simp [zoneMap]) 25
        (by decide)).2).trans (by decide)⟩)

/-- C18 (reachable bitmasks). Start from a state whose bitmask is 0, the
initial value of `s_nCabinetLights`, and take any byte stream and any number
`n` of ticks. The ticks come to their end whenever the buffers hold 60 pixels
and every blocking read is served. Whenever they come to their end, the
bitmask after them is 0 or lies in `[0x30, 0x6F]`; it is 0 only when every tick
consumed at most one byte and none of the bytes consumed was a marker, that is
when no frame was decoded; and from a bitmask in `[0x30, 0x6F]` every further
tick gives a bitmask in `[0x30, 0x6F]`, never 0 again. -/
theorem C18_bitmask_zero_only_at_power_on (cs : Bool) (st : State)
    (serial : List uint8_t) (n : Nat) (h0 : st.s_nCabinetLights = 0) :
    (st.leds.length = NUM_LEDS → st.framebuffer.length = NUM_LEDS → readsServed n serial →
      ∃ (st2 : State) (rest : List uint8_t), ticks cs n st serial = some (st2, rest)) ∧
    (∀ (st2 : State) (rest : List uint8_t), ticks cs n st serial = some (st2, rest) →
      (st2.s_nCabinetLights.val = 0 ∨
        (0x30 ≤ st2.s_nCabinetLights.val ∧ st2.s_nCabinetLights.val ≤ 0x6F)) ∧
      (st2.s_nCabinetLights.val = 0 →
        rest = serial.drop n ∧ ∀ b ∈ serial.take n, ¬ (0x30 ≤ b.val ∧ b.val ≤ 0x6F)) ∧
      (∀ (k : Nat) (st3 : State) (rest3 : List uint8_t),
        (0x30 ≤ st2.s_nCabinetLights.val ∧ st2.s_nCabinetLights.val ≤ 0x6F) →
        ticks cs k st2 rest = some (st3, rest3) →
        (0x30 ≤ st3.s_nCabinetLights.val ∧ st3.s_nCabinetLights.val ≤ 0x6F) ∧
          st3.s_nCabinetLights.val ≠ 0)) := by
  refine ⟨fun hl hf hs => ticks_of_readsServed cs n st serial hl hf hs, ?_⟩
  intro st2 rest ht
  obtain ⟨_, hcases⟩ := ticks_bitmask cs n st st2 serial rest ht
  refine ⟨?_, ?_, ?_⟩
  · rcases hcases with ⟨hm, _, _⟩ | hmark
    · left; rw [hm, h0]; rfl
    · exact Or.inr hmark
  · intro hz
    rcases hcases with ⟨_, hr, htake⟩ | hmark
    · exact ⟨hr, htake⟩
    · omega
  · intro k st3 rest3 hmark ht3
    have h3 := (ticks_bitmask cs k st2 st3 rest rest3 ht3).1 hmark
    exact ⟨h3, by omega⟩

set_option maxRecDepth 8192 in
/-- Witness of C18: from `powerOnState`, a byte 0x00 and then the frame
`[0x31, 0 x13]`; the two ticks come to their end and leave a bitmask that is 0
or lies in `[0x30, 0x6F]`. -/
theorem C18_bitmask_zero_only_at_power_on_witness :
    ∃ (st2 : State) (rest : List uint8_t),
      ticks true 2 powerOnState (0x00 :: 0x31 :: List.replicate 13 0) = some (st2, rest) ∧
      (st2.s_nCabinetLights.val = 0 ∨
        (0x30 ≤ st2.s_nCabinetLights.val ∧ st2.s_nCabinetLights.val ≤ 0x6F)) :=
  have h := C18_bitmask_zero_only_at_power_on true powerOnState
    (0x00 :: 0x31 :: List.replicate 13 0) 2 rfl
  (h.1 rfl rfl (by decide)).imp (fun st2 hex => hex.imp (fun rest ht =>
    ⟨ht, (h.2 st2 rest ht).1⟩))

/-! ## The submitted colours (C19, C20) -/

/-- C19 (submitted colour of a lit zone). For every state with buffers of 60
pixels and every tick that comes to its end, each pixel of a zone whose bit is
set in the bitmask at the time of the zone writes is submitted as the
gamma-corrected colour of the zone, whatever the buffers held before:
(255,255,0) in pixels 0..9 and 50..59, (255,0,0) in pixels 10..19 and 40..49,
(152,0,255) in pixels 20..39; the entries of `s_gamma8` for 212, 255 and 0 are
152, 255 and 0. -/
theorem C19_lit_zone_submitted_colour (cs : Bool) (st : State) (serial : List uint8_t)
    (hl : st.leds.length = NUM_LEDS) (hf : st.framebuffer.length = NUM_LEDS)
    (hs : frameServed serial) :
    (pgm_read_byte s_gamma8 212 = some 152 ∧ pgm_read_byte s_gamma8 255 = some 255 ∧
      pgm_read_byte s_gamma8 0 = some 0) ∧
    ∃ (st2 : State) (rest : List uint8_t), loop cs st serial = some (st2, rest) ∧
      ∀ j : Nat,
        ((j < 10 ∧ st2.s_nCabinetLights.val &&& 0x01 ≠ 0) ∨
            ((50 ≤ j ∧ j < 60) ∧ st2.s_nCabinetLights.val &&& 0x02 ≠ 0) →
          st2.framebuffer[j]? = some ⟨255, 255, 0⟩) ∧
        (((10 ≤ j ∧ j < 20) ∧ st2.s_nCabinetLights.val &&& 0x04 ≠ 0) ∨
            ((40 ≤ j ∧ j < 50) ∧ st2.s_nCabinetLights.val &&& 0x08 ≠ 0) →
          st2.framebuffer[j]? = some ⟨255, 0, 0⟩) ∧
        (((20 ≤ j ∧ j < 30) ∧ st2.s_nCabinetLights.val &&& 0x10 ≠ 0) ∨
            ((30 ≤ j ∧ j < 40) ∧ st2.s_nCabinetLights.val &&& 0x20 ≠ 0) →
          st2.framebuffer[j]? = some ⟨152, 0, 255⟩) := by
  obtain ⟨st1, rest, _, _, _, hloop⟩ := loop_served_eq cs st serial hl hf hs
  obtain ⟨hy, hr, hbass⟩ := correctPixel_zone_colours
  refine ⟨s_gamma8_zone_channels, _, rest, hloop, fun j => ⟨?_, ?_, ?_⟩⟩
  · rintro (⟨hj, ha⟩ | ⟨hj, ha⟩)
    · exact (getElem?_submitted_active st1.s_nCabinetLights st.leds j
        enumLightMaskMarqueeUpperLeft 0 10 CRGB.Yellow hl (by simp [zoneMap])
        ⟨Nat.zero_le j, hj⟩ ha).trans (congrArg some hy)
    · exact (getElem?_submitted_active st1.s_nCabinetLights st.leds j
        enumLightMaskMarqueeUpperRight 50 60 CRGB.Yellow hl (by simp [zoneMap])
        hj ha).trans (congrArg some hy)
  · rintro (⟨hj, ha⟩ | ⟨hj, ha⟩)
    · exact (getElem?_submitted_active st1.s_nCabinetLights st.leds j
        enumLightMaskMarqueeLowerLeft 10 20 CRGB.Red hl (by simp [zoneMap])
        hj ha).trans (congrArg some hr)
    · exact (getElem?_submitted_active st1.s_nCabinetLights st.leds j
        enumLightMaskMarqueeLowerRight 40 50 CRGB.Red hl (by simp [zoneMap])
        hj ha).trans (congrArg some hr)
  · rintro (⟨hj, ha⟩ | ⟨hj, ha⟩)
    · exact (getElem?_submitted_active st1.s_nCabinetLights st.leds j
        enumLightMaskBassLeft 20 30 ⟨212, 0, 255⟩ hl (by simp [zoneMap])
        hj ha).trans (congrArg some hbass)
    · exact (getElem?_submitted_active st1.s_nCabinetLights st.leds j
        enumLightMaskBassRight 30 40 ⟨212, 0, 255⟩ hl (by simp [zoneMap])
        hj ha).trans (congrArg some hbass)

set_option maxRecDepth 8192 in
/-- Witness of C19: `sampleLitState` (bitmask 0x3F) with no byte available:
pixel 25 is submitted as (152, 0, 255) and pixel 55 as (255, 255, 0). -/
theorem C19_lit_zone_submitted_colour_witness :
    ∃ (st2 : State) (rest : List uint8_t), loop true sampleLitState [] = some (st2, rest) ∧
      st2.framebuffer[25]? = some ⟨152, 0, 255⟩ ∧ st2.framebuffer[55]? = some ⟨255, 255, 0⟩ := by
  obtain ⟨st2, rest, hloop, hz⟩ :=
    (C19_lit_zone_submitted_colour true sampleLitState [] rfl rfl (by decide)).2
  have hm : st2.s_nCabinetLights = 0x3F := by
    rw [loop_nil_eq true sampleLitState rfl rfl] at hloop
    rw [← (Prod.mk.inj (Option.some.inj hloop)).1]
    rfl
  refine ⟨st2, rest, hloop, ?_, ?_⟩
  · exact (hz 25).2.2 (Or.inl ⟨by decide, by rw [hm]; decide⟩)
  · exact (hz 55).1 (Or.inr ⟨by decide, by rw [hm]; decide⟩)

/-- C20 (gamma correction never brightens). Every entry of `s_gamma8` is at
most its index; hence on buffers of 60 pixels each channel of each pixel that
`colorCorrect` writes to `framebuffer` is at most the same channel of the raw
pixel, and a raw channel of 0 is submitted as 0. -/
theorem C20_gamma_never_brightens (st : State) (hl : st.leds.length = NUM_LEDS)
    (hf : st.framebuffer.length = NUM_LEDS) :
    (∀ v : uint8_t, ∃ x : uint8_t, pgm_read_byte s_gamma8 v.val = some x ∧ x ≤ v) ∧
    ∃ st2 : State, colorCorrect st = some st2 ∧
      ∀ i : Nat, i < NUM_LEDS →
        ∃ src dst : CRGB, st.leds[i]? = some src ∧ st2.framebuffer[i]? = some dst ∧
          dst.r ≤ src.r ∧ dst.g ≤ src.g ∧ dst.b ≤ src.b ∧
          (src.r = 0 → dst.r = 0) ∧ (src.g = 0 → dst.g = 0) ∧ (src.b = 0 → dst.b = 0) := by
  refine ⟨fun v => ⟨gamma8 v, pgm_read_byte_s_gamma8 v, gamma8_le_self v⟩,
    _, colorCorrect_eq st hl hf, fun i hi => ?_⟩
  have hget : st.leds[i]? = some st.leds[i] := List.getElem?_eq_getElem (by omega)
  refine ⟨st.leds[i], correctPixel st.leds[i], hget, ?_, gamma8_le_self _, gamma8_le_self _,
    gamma8_le_self _, gamma8_eq_zero_of_eq_zero _, gamma8_eq_zero_of_eq_zero _,
    gamma8_eq_zero_of_eq_zero _⟩
  simp only [List.getElem?_map, hget, Option.map_some']

set_option maxRecDepth 8192 in
/-- Witness of C20: `colorCorrect` on `sampleState`, whose raw pixels are
(255, 100, 1): pixel 7 is submitted with channels at most 255, 100 and 1. -/
theorem C20_gamma_never_brightens_witness :
    ∃ st2 : State, colorCorrect sampleState = some st2 ∧
      ∃ dst : CRGB, st2.framebuffer[7]? = some dst ∧
        dst.r ≤ 255 ∧ dst.g ≤ 100 ∧ dst.b ≤ 1 :=
  (C20_gamma_never_brightens sampleState rfl rfl).2.imp
    (fun _ h => ⟨h.1, (h.2 7 (by decide)).elim (fun _ hs => hs.elim (fun dst hd => by
      obtain ⟨h1, h2, hr, hg, hb, _⟩ := hd
      cases h1
      exact ⟨dst, h2, hr, hg, hb⟩))⟩)

end CabinetLights
